import Mathlib

/-!
Verification development for the beatspine repository.

The definitions below are a shallow embedding of the slot-assignment core
(`src/beatspine/core.py`) and of the differential reconciliation planner
(`src/beatspine/resolve_sync.py`).

Modelling conventions:
* photo timestamps (Python `datetime`) are integer seconds since the Unix
  epoch; `datetime` subtraction and `total_seconds()` become integer
  subtraction, and the float arithmetic of the source is carried out in `ℚ`
  (exact where the source is exact on the small integers the claims use);
* a photo's file path is an opaque `Nat` identity;
* the `beats` list of `BeatInfo` objects is represented by its length
  (`numBeats`), which is all the assignment algorithms inspect;
* the Python list `beat_occupied` (a boolean per slot, monotonically set) is
  represented by the `Finset ℤ` of occupied indices;
* `console.error` terminates the process, so fallible functions return
  `Except MapError`;
* DaVinci Resolve's scripting API (`fusionscript`) is external to the
  repository; a reconciliation session is embedded as a pure function from an
  abstract host snapshot to the list of host operations it issues.
-/

namespace Beatspine

/-- A photo as loaded by `load_photos`: identity (path), timestamp, and the
optional 1-based beat anchor parsed from its Finder comment. -/
structure Photo where
  path : Nat
  date : Int
  anchor : Option Nat
deriving DecidableEq, Repr

/-- Time units of `TimeUnit` in `definitions.py`. -/
inductive TimeUnit
  | second | minute | hour | day | week | month | year
deriving DecidableEq, Repr

/-- The `TimeGap` clustering configuration from `definitions.py`. -/
structure TimeGap where
  amount : Nat
  unit : TimeUnit
  same_period_mode : Bool
deriving DecidableEq, Repr

/-- Divisor in seconds used by `calculate_time_delta` for each unit.  The
month and year divisors are the exact values of the source's float products
`86400 * 30.44` and `86400 * 365.25`. -/
def unitDivisor : TimeUnit → Nat
  | .second => 1
  | .minute => 60
  | .hour => 3600
  | .day => 86400
  | .week => 86400 * 7
  | .month => 2630016
  | .year => 31557600

/-- Embedding of `calculate_time_delta`: absolute difference of the two
timestamps in seconds, divided by the unit divisor with truncation (the
source's `int(...)` on a non-negative float is floor division). -/
def calculate_time_delta (d1 d2 : Int) (u : TimeUnit) : Nat :=
  (d2 - d1).natAbs / unitDivisor u

/-- Day number (days since the epoch) of a timestamp, flooring. -/
def dayNumber (t : Int) : Int :=
  (t - t.emod 86400).tdiv 86400

/-- Civil date (year, month, day) of a day number; Howard Hinnant's
`civil_from_days` algorithm in integer arithmetic. -/
def civilFromDays (z0 : Int) : Int × Nat × Nat :=
  let z : Int := z0 + 719468
  let era : Int := (if 0 ≤ z then z else z - 146096).tdiv 146097
  let doe : Nat := (z - era * 146097).toNat
  let yoe : Nat := (doe - doe / 1460 + doe / 36524 - doe / 146096) / 365
  let y : Int := (yoe : Int) + era * 400
  let doy : Nat := doe - (365 * yoe + yoe / 4 - yoe / 100)
  let mp : Nat := (5 * doy + 2) / 153
  let d : Nat := doy - (153 * mp + 2) / 5 + 1
  let m : Nat := if mp < 10 then mp + 3 else mp - 9
  (if m ≤ 2 then y + 1 else y, m, d)

/-- Day number of a civil date; Howard Hinnant's `days_from_civil`. -/
def daysFromCivil (y0 : Int) (m d : Nat) : Int :=
  let y : Int := if m ≤ 2 then y0 - 1 else y0
  let era : Int := (if 0 ≤ y then y else y - 399).tdiv 400
  let yoe : Nat := (y - era * 400).toNat
  let mp : Nat := if 2 < m then m - 3 else m + 9
  let doy : Nat := (153 * mp + 2) / 5 + d - 1
  let doe : Nat := yoe * 365 + yoe / 4 - yoe / 100 + doy
  era * 146097 + (doe : Int) - 719468

/-- Embedding of `normalize_to_period_start` on epoch-second timestamps
(microseconds are absent in the integer model, so the `second` case is the
identity).  The week case floors to the preceding Monday: the epoch day
1970-01-01 was a Thursday, weekday index 3. -/
def normalize_to_period_start (t : Int) (u : TimeUnit) : Int :=
  match u with
  | .second => t
  | .minute => t - t.emod 60
  | .hour => t - t.emod 3600
  | .day => t - t.emod 86400
  | .week =>
      let dn := dayNumber t
      (dn - (dn + 3).emod 7) * 86400
  | .month =>
      let c := civilFromDays (dayNumber t)
      daysFromCivil c.1 c.2.1 1 * 86400
  | .year =>
      let c := civilFromDays (dayNumber t)
      daysFromCivil c.1 1 1 * 86400

/-- The `PhotoCluster` record from `definitions.py`. -/
structure PhotoCluster where
  photos : List Photo
  start_date : Int
  end_date : Int
deriving DecidableEq, Repr

/-- Minimum of a list of dates, as Python's `min(dates)` on a non-empty list
(`0` for the unreachable empty case). -/
def listMin : List Int → Int
  | [] => 0
  | d :: ds => ds.foldl min d

/-- Maximum of a list of dates, as Python's `max(dates)`. -/
def listMax : List Int → Int
  | [] => 0
  | d :: ds => ds.foldl max d

/-- The `representative_date` property of `PhotoCluster`: median member
timestamp, `sorted(dates)[len(dates) // 2]` (Python's sort is stable, as is
insertion sort). -/
def PhotoCluster.representative_date (c : PhotoCluster) : Int :=
  let dates := List.insertionSort (· ≤ ·) (c.photos.map (·.date))
  dates.getD (dates.length / 2) 0

/-- Build a `PhotoCluster` from a non-empty run of photos, with
`start_date = min(dates)` and `end_date = max(dates)` as in the source. -/
def mkCluster (g : List Photo) : PhotoCluster :=
  ⟨g, listMin (g.map (·.date)), listMax (g.map (·.date))⟩

/-- Loop of `cluster_photos_by_minimum_gap`: `cur` is the accumulating
cluster, `prev` the previously visited photo (`photos[i - 1]`, always the
last element of `cur`); a gap `≥ amount` flushes the current cluster. -/
def minGapGo (tg : TimeGap) (prev : Photo) (cur : List Photo) :
    List Photo → List (List Photo)
  | [] => [cur]
  | ph :: rest =>
      if tg.amount ≤ calculate_time_delta prev.date ph.date tg.unit then
        cur :: minGapGo tg ph [ph] rest
      else
        minGapGo tg ph (cur ++ [ph]) rest

/-- Embedding of `cluster_photos_by_minimum_gap`. -/
def cluster_photos_by_minimum_gap (photos : List Photo) (tg : TimeGap) :
    List PhotoCluster :=
  match photos with
  | [] => []
  | p :: rest => (minGapGo tg p [p] rest).map mkCluster

/-- Insertion into the `period_groups` dict of
`cluster_photos_by_same_period`, preserving Python's dict insertion order. -/
def insertGroup (groups : List (Int × List Photo)) (key : Int) (ph : Photo) :
    List (Int × List Photo) :=
  match groups with
  | [] => [(key, [ph])]
  | (k, g) :: rest =>
      if k = key then (k, g ++ [ph]) :: rest
      else (k, g) :: insertGroup rest key ph

/-- Embedding of `cluster_photos_by_same_period`: group photos by normalized
period start, drop empty groups (none arise), build clusters, and sort them
by `start_date` (Python's `sorted` is stable, as is insertion sort). -/
def cluster_photos_by_same_period (photos : List Photo) (tg : TimeGap) :
    List PhotoCluster :=
  let groups := photos.foldl
    (fun gs ph => insertGroup gs (normalize_to_period_start ph.date tg.unit) ph) []
  List.insertionSort (fun a b => a.start_date ≤ b.start_date)
    ((groups.filter (fun g => !g.2.isEmpty)).map (fun g => mkCluster g.2))

/-- Embedding of `cluster_photos_by_time_gap`. -/
def cluster_photos_by_time_gap (photos : List Photo) (tg : TimeGap) :
    List PhotoCluster :=
  if tg.amount = 0 then photos.map (fun ph => ⟨[ph], ph.date, ph.date⟩)
  else if tg.same_period_mode then cluster_photos_by_same_period photos tg
  else cluster_photos_by_minimum_gap photos tg

/-- A `PhotoPlacement` from `definitions.py` (the `MediaAsset` is represented
by the photo's path identity; UID derivation is deterministic in the path). -/
structure Placement where
  path : Nat
  beat_index : Int
  date : Int
  is_anchored : Bool
  cluster_id : Option Nat
deriving DecidableEq, Repr

/-- Fatal errors raised through `console.error` by the mapping functions. -/
inductive MapError
  | invalid_timespan
  | too_many (required available : Nat)
deriving DecidableEq, Repr

/-- Length of the Python slice `beats[start_offset : len(beats) - end_offset]`
(`num_effective_beats`), with Python's negative-stop normalization. -/
def effective_beat_count (numBeats startOffset endOffset : Nat) : Nat :=
  let stop : Int := (numBeats : Int) - endOffset
  let nstop : Int := if stop < 0 then max 0 ((numBeats : Int) + stop)
                     else min stop numBeats
  let nstart : Int := min (startOffset : Int) numBeats
  (max 0 (nstop - nstart)).toNat

/-- The preferred beat of the chronological pass:
`start_offset + min(int(position * (num_effective_beats - 1)), num_effective_beats - 1)`
where `position = (date - start_date).total_seconds() / timespan`.  Python's
`int(...)` truncates toward zero, and for the positive `timespan` the callers
guarantee, the truncation of the exact value
`(d - startDate) * (numEff - 1) / timespan` is the integer `tdiv` below. -/
def preferred_beat (startDate : Int) (timespan : Int) (startOffset : Nat)
    (numEff : Nat) (d : Int) : Int :=
  (startOffset : Int) +
    min (Int.tdiv ((d - startDate) * ((numEff : Int) - 1)) timespan)
      ((numEff : Int) - 1)

/-- Candidate index tried by the nearest-free-beat search at radius `r`:
odd radii look left (`preferred - (r / 2 + 1)`), even radii look right
(`preferred + r / 2`). -/
def spiral_candidate (preferred : Int) (r : Nat) : Int :=
  if r % 2 = 1 then preferred - ((r / 2 : Nat) + 1 : Nat)
  else preferred + (r / 2 : Nat)

/-- The `while beat_occupied[assigned_beat] and search_radius < num_effective_beats`
search loop: if the preferred beat is free it is taken; otherwise radii
`1, …, numEff` are tried in order and the first in-range unoccupied candidate
is taken; `none` means the loop exhausted its radii and the photo or cluster
is silently skipped (`if not beat_occupied[assigned_beat]` fails). -/
def find_free_beat (occupied : Finset Int) (lo hi preferred : Int)
    (numEff : Nat) : Option Int :=
  if preferred ∉ occupied then some preferred
  else ((List.range numEff).map (· + 1)).findSome? (fun r =>
    let c := spiral_candidate preferred r
    if lo ≤ c ∧ c < hi ∧ c ∉ occupied then some c else none)

/-- Body of the anchored (pin) pass, shared verbatim by
`map_photos_to_beats_original` and `map_photo_clusters_to_beats`: a photo
carrying anchor `a` claims 0-based beat `a - 1` when that index lies in the
effective range and is unoccupied; otherwise the photo is left for the
chronological pass (a warning in the source). -/
def anchorStep (lo hi : Int) (cid : Option Nat)
    (acc : Finset Int × List Placement) (ph : Photo) :
    Finset Int × List Placement :=
  match ph.anchor with
  | none => acc
  | some a =>
      let bi : Int := (a : Int) - 1
      if lo ≤ bi ∧ bi < hi then
        if bi ∈ acc.1 then acc
        else (insert bi acc.1, acc.2 ++ [⟨ph.path, bi, ph.date, true, cid⟩])
      else acc

/-- The anchored pass over a list of photos tagged with their cluster id
(`none` on the no-clustering path); the nested cluster/photo loops of the
clustered path are the fold over the flattened tagged list. -/
def pass1 (lo hi : Int) (tagged : List (Photo × Option Nat)) :
    Finset Int × List Placement :=
  tagged.foldl (fun acc pc => anchorStep lo hi pc.2 acc pc.1) (∅, [])

/-- Body of the chronological pass of `map_photos_to_beats_original`: place
the photo at the first free beat found by the spiral search, or skip it
silently when the search fails. -/
def chronoPhotoStep (startDate : Int) (timespan : Int) (startOffset : Nat)
    (lo hi : Int) (numEff : Nat) (acc : Finset Int × List Placement)
    (ph : Photo) : Finset Int × List Placement :=
  match find_free_beat acc.1 lo hi
      (preferred_beat startDate timespan startOffset numEff ph.date) numEff with
  | some b => (insert b acc.1, acc.2 ++ [⟨ph.path, b, ph.date, false, none⟩])
  | none => acc

/-- The closed date-interval filter `start_date <= date <= end_date`. -/
def inRange (start_date end_date : Int) (ph : Photo) : Bool :=
  decide (start_date ≤ ph.date ∧ ph.date ≤ end_date)

/-- Placement list produced by the two passes of
`map_photos_to_beats_original` once the timespan and capacity checks have
passed, sorted by beat index (Python's `sorted` is stable, as is insertion
sort). -/
def original_placements (photos : List Photo) (numBeats : Nat)
    (start_date end_date : Int) (start_offset end_offset : Nat) :
    List Placement :=
  let timespan : Int := end_date - start_date
  let numEff := effective_beat_count numBeats start_offset end_offset
  let lo : Int := start_offset
  let hi : Int := (numBeats : Int) - end_offset
  let filtered := photos.filter (inRange start_date end_date)
  let p1 := pass1 lo hi (filtered.map (fun ph => (ph, (none : Option Nat))))
  let non_anchored := filtered.filter (fun ph =>
    ph.anchor.isNone || !(p1.2.any (fun p => p.path == ph.path)))
  let p2 := non_anchored.foldl
    (chronoPhotoStep start_date timespan start_offset lo hi numEff) p1
  List.insertionSort (fun p q => p.beat_index ≤ q.beat_index) p2.2

/-- Embedding of `map_photos_to_beats_original` (clustering disabled). -/
def map_photos_to_beats_original (photos : List Photo) (numBeats : Nat)
    (start_date end_date : Int) (start_offset end_offset : Nat) :
    Except MapError (List Placement) :=
  let timespan : Int := end_date - start_date
  if timespan ≤ 0 then .error .invalid_timespan else
  let numEff := effective_beat_count numBeats start_offset end_offset
  let filtered := photos.filter (inRange start_date end_date)
  if numEff < filtered.length then .error (.too_many filtered.length numEff) else
  .ok (original_placements photos numBeats start_date end_date
    start_offset end_offset)

/-- Body of the chronological pass of `map_photo_clusters_to_beats`: place
every not-already-anchored photo of the cluster at the beat found by the
spiral search, or skip the whole cluster silently when the search fails. -/
def clusterStep (startDate : Int) (timespan : Int) (startOffset : Nat)
    (lo hi : Int) (numEff : Nat) (acc : Finset Int × List Placement)
    (ic : Nat × PhotoCluster) : Finset Int × List Placement :=
  match find_free_beat acc.1 lo hi
      (preferred_beat startDate timespan startOffset numEff
        ic.2.representative_date) numEff with
  | some b =>
      (insert b acc.1,
       acc.2 ++ (ic.2.photos.filter (fun ph =>
           !(acc.2.any (fun p => p.path == ph.path && p.is_anchored)))).map
         (fun ph => ⟨ph.path, b, ph.date, false, some ic.1⟩))
  | none => acc

/-- Placement list produced by the two passes of
`map_photo_clusters_to_beats` once the timespan and capacity checks have
passed, sorted by `(beat_index, date)`. -/
def cluster_placements (clusters : List PhotoCluster) (numBeats : Nat)
    (start_date end_date : Int) (start_offset end_offset : Nat) :
    List Placement :=
  let timespan : Int := end_date - start_date
  let numEff := effective_beat_count numBeats start_offset end_offset
  let lo : Int := start_offset
  let hi : Int := (numBeats : Int) - end_offset
  let p1 := pass1 lo hi
    (clusters.enum.flatMap (fun ic => ic.2.photos.map (fun ph => (ph, some ic.1))))
  let unassigned := clusters.enum.filter (fun ic =>
    !(p1.2.any (fun p => p.cluster_id == some ic.1 && p.is_anchored)))
  let p2 := unassigned.foldl
    (clusterStep start_date timespan start_offset lo hi numEff) p1
  List.insertionSort (fun p q =>
    p.beat_index < q.beat_index ∨
      (p.beat_index = q.beat_index ∧ p.date ≤ q.date)) p2.2

/-- Embedding of `map_photo_clusters_to_beats`. -/
def map_photo_clusters_to_beats (clusters : List PhotoCluster) (numBeats : Nat)
    (start_date end_date : Int) (start_offset end_offset : Nat) :
    Except MapError (List Placement) :=
  let timespan : Int := end_date - start_date
  if timespan ≤ 0 then .error .invalid_timespan else
  let numEff := effective_beat_count numBeats start_offset end_offset
  if numEff < clusters.length then .error (.too_many clusters.length numEff) else
  .ok (cluster_placements clusters numBeats start_date end_date
    start_offset end_offset)

/-- Embedding of `map_photos_to_beats`: filter photos to the closed date
interval, return an empty placement list when nothing remains (a warning in
the source), then dispatch on the clustering configuration. -/
def map_photos_to_beats (photos : List Photo) (numBeats : Nat)
    (start_date end_date : Int) (start_offset end_offset : Nat)
    (tg : TimeGap) : Except MapError (List Placement) :=
  let filtered := photos.filter (inRange start_date end_date)
  if filtered.isEmpty then .ok []
  else if tg.amount = 0 then
    map_photos_to_beats_original filtered numBeats start_date end_date
      start_offset end_offset
  else
    map_photo_clusters_to_beats (cluster_photos_by_time_gap filtered tg)
      numBeats start_date end_date start_offset end_offset

/-! Embedding of the differential reconciliation planner (`resolve_sync.py`).

Asset UIDs are opaque `Nat`s.  A stored `SyncState` is represented by its
`managed_asset_uids` field, the only field the planner reads.  The frame
positions read back from host timeline items are abstract `ℚ` values supplied
as an oracle `curInfo`; the target element's `start_frame`/`duration_frames`
are supplied as `tgtInfo`. -/

/-- The persisted `SyncState`, restricted to the field read by planning. -/
structure SyncStateM where
  managed_asset_uids : Finset Nat
deriving DecidableEq

/-- Frame position and duration of a currently-placed host timeline item, as
returned by `GetStart(True)` / `GetDuration(True)`. -/
structure FrameInfo where
  start_frames : ℚ
  duration_frames : ℚ
deriving DecidableEq

/-- The `TimelineChanges` record, with element tuples represented by the UID
sets that key them. -/
structure TimelineChanges where
  items_to_add : Finset Nat
  items_to_remove : Finset Nat
  items_to_update : Finset Nat
  markers_to_sync : Bool
deriving DecidableEq

/-- The `has_changes` property of `TimelineChanges`. -/
def TimelineChanges.has_changes (c : TimelineChanges) : Bool :=
  decide (c.items_to_add ≠ ∅) || decide (c.items_to_remove ≠ ∅) ||
    decide (c.items_to_update ≠ ∅) || c.markers_to_sync

/-- Managed-UID set of an optional stored state
(`stored_state.managed_asset_uids if stored_state else frozenset()`). -/
def managed_of : Option SyncStateM → Finset Nat
  | some s => s.managed_asset_uids
  | none => ∅

/-- Embedding of `_requires_update`: start-frame drift beyond the half-frame
tolerance, else duration-frame drift beyond it. -/
def requires_update (cur : FrameInfo) (tgtStart tgtDur : Int) : Bool :=
  if (1 : ℚ) / 2 < |cur.start_frames - (tgtStart : ℚ)| then true
  else decide ((1 : ℚ) / 2 < |cur.duration_frames - (tgtDur : ℚ)|)

/-- Embedding of `_compute_differential_changes`:
additions `= T − C`, removals `= (C ∩ M) − T`, updates `= drifted C ∩ T`,
and marker sync is always planned. -/
def compute_differential_changes (current target : Finset Nat)
    (stored : Option SyncStateM) (curInfo : Nat → FrameInfo)
    (tgtInfo : Nat → Int × Int) : TimelineChanges :=
  let managed := managed_of stored
  { items_to_add := target \ current
    items_to_remove := (current ∩ managed) \ target
    items_to_update := (current ∩ target).filter
      (fun u => requires_update (curInfo u) (tgtInfo u).1 (tgtInfo u).2 = true)
    markers_to_sync := true }

/-- Host operations a reconciliation session can issue against DaVinci
Resolve.  Read-only calls are not recorded; op multiplicities inside the
content-sync phase are abstracted to one op per kind, preserving exactly
which kinds of mutation each control path issues. -/
inductive HostOp
  | loadProject | closeProject | deleteProject | createProject
  | setProjectSetting
  | createTimeline | importMedia | appendToTimeline
  | addMarker | deleteMarker
  | setTimelineSetting | setCurrentTimeline
deriving DecidableEq, Repr

/-- An op that mutates timeline content, the media pool, or the persisted
sync state — everything beyond project resolution and the three project
setting writes. -/
def HostOp.is_content_mutation : HostOp → Bool
  | .createTimeline | .importMedia | .appendToTimeline
  | .addMarker | .deleteMarker | .setTimelineSetting | .setCurrentTimeline => true
  | _ => false

/-- Abstract snapshot of the external host at session start. -/
structure HostState where
  projectExists : Bool
  settingsOk : Bool
  timelineExists : Bool
  stored : Option SyncStateM
  currentUids : Finset Nat
  itemsManaged : List Bool
  markersManaged : List Bool
  curInfo : Nat → FrameInfo

/-- Embedding of `_analyze_conflicts`' `has_conflicts`: any current item
without a beatspine UID, or any marker without the beatspine tag. -/
def has_conflicts (s : HostState) : Bool :=
  s.itemsManaged.any (fun b => !b) || s.markersManaged.any (fun b => !b)

/-- Outcome of a reconciliation session. -/
inductive SyncOutcome
  | settingsError | dryRunReported | cancelled | applied
deriving DecidableEq, Repr

/-- Ops of `_sync_timeline_content` on the full-create path: batch media
import, append every element, synchronize markers, persist the sync state
(two timeline setting writes) and activate the timeline. -/
def content_full_ops : List HostOp :=
  [.importMedia, .appendToTimeline, .addMarker,
   .setTimelineSetting, .setTimelineSetting, .setCurrentTimeline]

/-- Ops of `_sync_timeline_content` on the differential path: removals and
updates are computed but issue no host ops (the source only logs them), and
marker sync runs whenever `markers_to_sync` is set. -/
def content_diff_ops (c : TimelineChanges) : List HostOp :=
  [.importMedia] ++
    (if c.items_to_add = ∅ then [] else [.appendToTimeline]) ++
    (if c.markers_to_sync then [.addMarker] else []) ++
    [.setTimelineSetting, .setTimelineSetting, .setCurrentTimeline]

/-- Embedding of `ResolveSync.sync_project` as the list of host operations
issued and the session outcome.  `confirm` is the operator's answer at the
interactive conflict gate. -/
def sync_project (s : HostState) (target : Finset Nat)
    (tgtInfo : Nat → Int × Int) (force recreate dry_run confirm : Bool) :
    List HostOp × SyncOutcome :=
  let projOps : List HostOp :=
    if s.projectExists && !recreate then [.loadProject]
    else if s.projectExists then
      [.loadProject, .closeProject, .deleteProject, .createProject]
    else [.loadProject, .createProject]
  if !s.settingsOk then (projOps ++ [.setProjectSetting], .settingsError)
  else
    let ops0 := projOps ++
      [.setProjectSetting, .setProjectSetting, .setProjectSetting]
    let timelineFound := s.timelineExists && s.projectExists && !recreate
    if !timelineFound then
      if dry_run then (ops0, .dryRunReported)
      else (ops0 ++ [.createTimeline] ++ content_full_ops, .applied)
    else
      let changes := compute_differential_changes s.currentUids target
        s.stored s.curInfo tgtInfo
      let conflicts := has_conflicts s
      if conflicts && !force && dry_run then (ops0, .dryRunReported)
      else if conflicts && !force && !confirm then (ops0, .cancelled)
      else if dry_run then (ops0, .dryRunReported)
      else (ops0 ++ content_diff_ops changes, .applied)

/-! Generic fold lemmas. -/

theorem foldl_inv {σ α : Type _} (f : σ → α → σ) (P : σ → Prop) :
    ∀ (l : List α) (acc : σ), (∀ a x, x ∈ l → P a → P (f a x)) → P acc →
      P (l.foldl f acc) := by
  intro l
  induction l with
  | nil => intro acc _ h; exact h
  | cons x xs ih =>
      intro acc hstep h
      exact ih (f acc x) (fun a y hy => hstep a y (List.mem_cons_of_mem x hy))
        (hstep acc x (List.mem_cons_self x xs) h)

theorem foldl_snd_mono {α : Type _}
    (f : Finset Int × List Placement → α → Finset Int × List Placement)
    (hf : ∀ acc x, ∃ t, (f acc x).2 = acc.2 ++ t) :
    ∀ (l : List α) (acc), ∃ t, (l.foldl f acc).2 = acc.2 ++ t := by
  intro l
  induction l with
  | nil => intro acc; exact ⟨[], (List.append_nil _).symm⟩
  | cons x xs ih =>
      intro acc
      obtain ⟨t₁, h₁⟩ := hf acc x
      obtain ⟨t₂, h₂⟩ := ih (f acc x)
      exact ⟨t₁ ++ t₂, by rw [List.foldl_cons, h₂, h₁, List.append_assoc]⟩

theorem foldl_mem_mono {α : Type _}
    (f : Finset Int × List Placement → α → Finset Int × List Placement)
    (hf : ∀ acc x, ∃ t, (f acc x).2 = acc.2 ++ t)
    (l : List α) (acc : Finset Int × List Placement) {p : Placement}
    (hp : p ∈ acc.2) : p ∈ (l.foldl f acc).2 := by
  obtain ⟨t, ht⟩ := foldl_snd_mono f hf l acc
  rw [ht]
  exact List.mem_append_left _ hp

theorem findSome_mem {α β : Type _} (g : α → Option β) :
    ∀ (l : List α) (b : β), l.findSome? g = some b → ∃ x ∈ l, g x = some b := by
  intro l
  induction l with
  | nil => intro b h; simp [List.findSome?] at h
  | cons x xs ih =>
      intro b h
      rw [List.findSome?_cons] at h
      cases hx : g x with
      | some c =>
          rw [hx] at h
          dsimp only at h
          exact ⟨x, List.mem_cons_self x xs, by rw [hx, h]⟩
      | none =>
          rw [hx] at h
          dsimp only at h
          obtain ⟨y, hy, hgy⟩ := ih b h
          exact ⟨y, List.mem_cons_of_mem x hy, hgy⟩

/-! Step-shape lemmas: every pass step only appends placements. -/

theorem anchorStep_snd (lo hi : Int) (cid : Option Nat)
    (acc : Finset Int × List Placement) (ph : Photo) :
    ∃ t, (anchorStep lo hi cid acc ph).2 = acc.2 ++ t := by
  unfold anchorStep
  cases ph.anchor with
  | none => exact ⟨[], (List.append_nil _).symm⟩
  | some a =>
      dsimp only
      split
      · split
        · exact ⟨[], (List.append_nil _).symm⟩
        · exact ⟨_, rfl⟩
      · exact ⟨[], (List.append_nil _).symm⟩

theorem chronoPhotoStep_snd (startDate : Int) (timespan : Int)
    (startOffset : Nat) (lo hi : Int) (numEff : Nat)
    (acc : Finset Int × List Placement) (ph : Photo) :
    ∃ t, (chronoPhotoStep startDate timespan startOffset lo hi numEff acc ph).2 =
      acc.2 ++ t := by
  unfold chronoPhotoStep
  split
  · exact ⟨_, rfl⟩
  · exact ⟨[], (List.append_nil _).symm⟩

theorem clusterStep_snd (startDate : Int) (timespan : Int)
    (startOffset : Nat) (lo hi : Int) (numEff : Nat)
    (acc : Finset Int × List Placement) (ic : Nat × PhotoCluster) :
    ∃ t, (clusterStep startDate timespan startOffset lo hi numEff acc ic).2 =
      acc.2 ++ t := by
  unfold clusterStep
  split
  · exact ⟨_, rfl⟩
  · exact ⟨[], (List.append_nil _).symm⟩

/-- A successful spiral search returns an unoccupied beat. -/
theorem find_free_beat_not_mem {occupied : Finset Int} {lo hi preferred : Int}
    {numEff : Nat} {b : Int}
    (h : find_free_beat occupied lo hi preferred numEff = some b) :
    b ∉ occupied := by
  unfold find_free_beat at h
  split at h
  · cases h; assumption
  · obtain ⟨r, _, hr⟩ := findSome_mem _ _ _ h
    dsimp only at hr
    split at hr
    · cases hr
      exact (by assumption : lo ≤ _ ∧ _ < hi ∧ _ ∉ occupied).2.2
    · cases hr

/-! Case analyses of the pass bodies. -/

theorem anchorStep_cases (lo hi : Int) (cid : Option Nat)
    (acc : Finset Int × List Placement) (ph : Photo) :
    anchorStep lo hi cid acc ph = acc ∨
    ∃ a, ph.anchor = some a ∧ lo ≤ (a : Int) - 1 ∧ (a : Int) - 1 < hi ∧
      ((a : Int) - 1) ∉ acc.1 ∧
      anchorStep lo hi cid acc ph =
        (insert ((a : Int) - 1) acc.1,
         acc.2 ++ [⟨ph.path, (a : Int) - 1, ph.date, true, cid⟩]) := by
  unfold anchorStep
  cases ph.anchor with
  | none => exact Or.inl rfl
  | some a =>
      dsimp only
      split
      · rename_i hrange
        split
        · exact Or.inl rfl
        · rename_i hocc
          exact Or.inr ⟨a, rfl, hrange.1, hrange.2, hocc, rfl⟩
      · exact Or.inl rfl

theorem chronoPhotoStep_cases (startDate : Int) (timespan : Int)
    (startOffset : Nat) (lo hi : Int) (numEff : Nat)
    (acc : Finset Int × List Placement) (ph : Photo) :
    chronoPhotoStep startDate timespan startOffset lo hi numEff acc ph = acc ∨
    ∃ b, find_free_beat acc.1 lo hi
        (preferred_beat startDate timespan startOffset numEff ph.date) numEff =
          some b ∧
      chronoPhotoStep startDate timespan startOffset lo hi numEff acc ph =
        (insert b acc.1, acc.2 ++ [⟨ph.path, b, ph.date, false, none⟩]) := by
  unfold chronoPhotoStep
  split
  · rename_i b hb
    exact Or.inr ⟨b, hb, rfl⟩
  · exact Or.inl rfl

theorem clusterStep_cases (startDate : Int) (timespan : Int)
    (startOffset : Nat) (lo hi : Int) (numEff : Nat)
    (acc : Finset Int × List Placement) (ic : Nat × PhotoCluster) :
    clusterStep startDate timespan startOffset lo hi numEff acc ic = acc ∨
    ∃ b, find_free_beat acc.1 lo hi
        (preferred_beat startDate timespan startOffset numEff
          ic.2.representative_date) numEff = some b ∧
      clusterStep startDate timespan startOffset lo hi numEff acc ic =
        (insert b acc.1,
         acc.2 ++ (ic.2.photos.filter (fun ph =>
             !(acc.2.any (fun p => p.path == ph.path && p.is_anchored)))).map
           (fun ph => ⟨ph.path, b, ph.date, false, some ic.1⟩)) := by
  unfold clusterStep
  split
  · rename_i b hb
    exact Or.inr ⟨b, hb, rfl⟩
  · exact Or.inl rfl

/-! Slot-uniqueness invariants (claim C1). -/

/-- Every recorded placement occupies a beat marked in the occupancy set. -/
def OccInv (st : Finset Int × List Placement) : Prop :=
  ∀ p ∈ st.2, p.beat_index ∈ st.1

/-- Invariant of the no-clustering path: occupancy consistency plus pairwise
distinct beat indices. -/
def UniqInv (st : Finset Int × List Placement) : Prop :=
  OccInv st ∧ (st.2.map (fun p => p.beat_index)).Nodup

/-- Two placements of distinct clusters never share a beat index. -/
def RelC (p q : Placement) : Prop :=
  p.cluster_id = q.cluster_id ∨ p.beat_index ≠ q.beat_index

theorem RelC_symm : ∀ {p q : Placement}, RelC p q → RelC q p := by
  intro p q h
  cases h with
  | inl h => exact Or.inl h.symm
  | inr h => exact Or.inr (Ne.symm h)

/-- Invariant of the clustered path: occupancy consistency plus `RelC`
pairwise. -/
def ClusterInv (st : Finset Int × List Placement) : Prop :=
  OccInv st ∧ st.2.Pairwise RelC

theorem appendFresh_uniqInv {st : Finset Int × List Placement} {b : Int}
    {pl : Placement} (hInv : UniqInv st) (hb : b ∉ st.1)
    (hpl : pl.beat_index = b) : UniqInv (insert b st.1, st.2 ++ [pl]) := by
  obtain ⟨hOcc, hNd⟩ := hInv
  constructor
  · intro p hp
    rcases List.mem_append.mp hp with hp | hp
    · exact Finset.mem_insert_of_mem (hOcc p hp)
    · rcases List.mem_singleton.mp hp with rfl
      rw [hpl]
      exact Finset.mem_insert_self _ _
  · rw [List.map_append, List.map_singleton]
    rw [List.nodup_append]
    refine ⟨hNd, List.nodup_singleton _, ?_⟩
    intro x hx hy
    rcases List.mem_map.mp hx with ⟨q, hq, rfl⟩
    have hxb : q.beat_index = pl.beat_index := List.mem_singleton.mp hy
    rw [hpl] at hxb
    exact hb (hxb ▸ hOcc q hq)

theorem appendGroup_clusterInv {st : Finset Int × List Placement} {b : Int}
    {v : Option Nat} {G : List Placement} (hInv : ClusterInv st)
    (hb : b ∉ st.1)
    (hG : ∀ q ∈ G, q.beat_index = b ∧ q.cluster_id = v) :
    ClusterInv (insert b st.1, st.2 ++ G) := by
  obtain ⟨hOcc, hPw⟩ := hInv
  constructor
  · intro p hp
    rcases List.mem_append.mp hp with hp | hp
    · exact Finset.mem_insert_of_mem (hOcc p hp)
    · rw [(hG p hp).1]
      exact Finset.mem_insert_self _ _
  · rw [List.pairwise_append]
    refine ⟨hPw, ?_, ?_⟩
    · exact List.pairwise_of_forall_mem_list fun x hx y hy =>
        Or.inl ((hG x hx).2.trans (hG y hy).2.symm)
    · intro x hx y hy
      refine Or.inr ?_
      rw [(hG y hy).1]
      intro hxb
      exact hb (hxb ▸ hOcc x hx)

theorem anchorStep_uniqInv {lo hi : Int} {cid : Option Nat}
    {acc : Finset Int × List Placement} {ph : Photo} (hInv : UniqInv acc) :
    UniqInv (anchorStep lo hi cid acc ph) := by
  rcases anchorStep_cases lo hi cid acc ph with h | ⟨a, _, _, _, hocc, h⟩
  · rw [h]; exact hInv
  · rw [h]; exact appendFresh_uniqInv hInv hocc rfl

theorem chronoPhotoStep_uniqInv {startDate : Int} {timespan : Int}
    {startOffset : Nat} {lo hi : Int} {numEff : Nat}
    {acc : Finset Int × List Placement} {ph : Photo} (hInv : UniqInv acc) :
    UniqInv (chronoPhotoStep startDate timespan startOffset lo hi numEff acc ph) := by
  rcases chronoPhotoStep_cases startDate timespan startOffset lo hi numEff acc ph
    with h | ⟨b, hb, h⟩
  · rw [h]; exact hInv
  · rw [h]; exact appendFresh_uniqInv hInv (find_free_beat_not_mem hb) rfl

theorem anchorStep_clusterInv {lo hi : Int} {cid : Option Nat}
    {acc : Finset Int × List Placement} {ph : Photo} (hInv : ClusterInv acc) :
    ClusterInv (anchorStep lo hi cid acc ph) := by
  rcases anchorStep_cases lo hi cid acc ph with h | ⟨a, _, _, _, hocc, h⟩
  · rw [h]; exact hInv
  · rw [h]
    exact appendGroup_clusterInv hInv hocc
      (fun q hq => by rcases List.mem_singleton.mp hq with rfl; exact ⟨rfl, rfl⟩)

theorem clusterStep_clusterInv {startDate : Int} {timespan : Int}
    {startOffset : Nat} {lo hi : Int} {numEff : Nat}
    {acc : Finset Int × List Placement} {ic : Nat × PhotoCluster}
    (hInv : ClusterInv acc) :
    ClusterInv (clusterStep startDate timespan startOffset lo hi numEff acc ic) := by
  rcases clusterStep_cases startDate timespan startOffset lo hi numEff acc ic
    with h | ⟨b, hb, h⟩
  · rw [h]; exact hInv
  · rw [h]
    refine appendGroup_clusterInv (v := some ic.1) hInv (find_free_beat_not_mem hb) ?_
    intro q hq
    rcases List.mem_map.mp hq with ⟨ph, _, rfl⟩
    exact ⟨rfl, rfl⟩

/-! Success-shape lemmas for the two mapping functions. -/

theorem original_ok_elim {photos : List Photo} {numBeats : Nat} {sd ed : Int}
    {so eo : Nat} {ps : List Placement}
    (h : map_photos_to_beats_original photos numBeats sd ed so eo = .ok ps) :
    sd < ed ∧
      (photos.filter (inRange sd ed)).length ≤ effective_beat_count numBeats so eo ∧
      ps = original_placements photos numBeats sd ed so eo := by
  simp only [map_photos_to_beats_original] at h
  split at h
  · exact absurd h (by simp)
  · split at h
    · exact absurd h (by simp)
    · rename_i h1 h2
      refine ⟨by omega, by omega, ?_⟩
      exact (Except.ok.injEq _ _ ▸ congrArg id h).symm ▸ rfl

theorem clusters_ok_elim {clusters : List PhotoCluster} {numBeats : Nat}
    {sd ed : Int} {so eo : Nat} {ps : List Placement}
    (h : map_photo_clusters_to_beats clusters numBeats sd ed so eo = .ok ps) :
    sd < ed ∧ clusters.length ≤ effective_beat_count numBeats so eo ∧
      ps = cluster_placements clusters numBeats sd ed so eo := by
  simp only [map_photo_clusters_to_beats] at h
  split at h
  · exact absurd h (by simp)
  · split at h
    · exact absurd h (by simp)
    · rename_i h1 h2
      refine ⟨by omega, by omega, ?_⟩
      exact (Except.ok.injEq _ _ ▸ congrArg id h).symm ▸ rfl

/-! Claim C1: slot uniqueness. -/

theorem pass2_uniqInv (lo hi : Int) (tagged : List (Photo × Option Nat))
    (l2 : List Photo) (sd : Int) (ts : Int) (so : Nat) (numEff : Nat) :
    UniqInv (l2.foldl (chronoPhotoStep sd ts so lo hi numEff)
      (pass1 lo hi tagged)) := by
  refine foldl_inv _ UniqInv l2 _ (fun a x _ h => chronoPhotoStep_uniqInv h) ?_
  unfold pass1
  refine foldl_inv _ UniqInv tagged _ (fun a x _ h => anchorStep_uniqInv h) ?_
  exact ⟨fun p hp => absurd hp (List.not_mem_nil p), List.nodup_nil⟩

theorem pass2_clusterInv (lo hi : Int) (tagged : List (Photo × Option Nat))
    (U : List (Nat × PhotoCluster)) (sd : Int) (ts : Int) (so : Nat)
    (numEff : Nat) :
    ClusterInv (U.foldl (clusterStep sd ts so lo hi numEff)
      (pass1 lo hi tagged)) := by
  refine foldl_inv _ ClusterInv U _ (fun a x _ h => clusterStep_clusterInv h) ?_
  unfold pass1
  refine foldl_inv _ ClusterInv tagged _ (fun a x _ h => anchorStep_clusterInv h) ?_
  exact ⟨fun p hp => absurd hp (List.not_mem_nil p), List.Pairwise.nil⟩

theorem original_placements_uniq (photos : List Photo) (numBeats : Nat)
    (sd ed : Int) (so eo : Nat) :
    ((original_placements photos numBeats sd ed so eo).map
      (fun p => p.beat_index)).Nodup := by
  simp only [original_placements]
  exact ((List.perm_insertionSort _ _).map (fun p : Placement => p.beat_index)).nodup_iff.mpr
    (pass2_uniqInv _ _ _ _ _ _ _ _).2

theorem cluster_placements_pairwise (clusters : List PhotoCluster)
    (numBeats : Nat) (sd ed : Int) (so eo : Nat) :
    (cluster_placements clusters numBeats sd ed so eo).Pairwise RelC := by
  simp only [cluster_placements]
  exact ((List.perm_insertionSort _ _).pairwise_iff RelC_symm).mpr
    (pass2_clusterInv _ _ _ _ _ _ _ _).2

/-- C1.  Uniqueness of slot occupation: in every successful run of the
no-clustering path no two placements share a beat index, and in every
successful run of the clustered path no two placements of distinct clusters
share a beat index (the occupancy set is checked before every assignment and
never cleared). -/
theorem c1_slot_uniqueness :
    (∀ (photos : List Photo) (numBeats : Nat) (sd ed : Int) (so eo : Nat)
        (ps : List Placement),
        map_photos_to_beats_original photos numBeats sd ed so eo = .ok ps →
        (ps.map (fun p => p.beat_index)).Nodup) ∧
    (∀ (clusters : List PhotoCluster) (numBeats : Nat) (sd ed : Int)
        (so eo : Nat) (ps : List Placement),
        map_photo_clusters_to_beats clusters numBeats sd ed so eo = .ok ps →
        ps.Pairwise RelC) := by
  constructor
  · intro photos numBeats sd ed so eo ps h
    rw [(original_ok_elim h).2.2]
    exact original_placements_uniq photos numBeats sd ed so eo
  · intro clusters numBeats sd ed so eo ps h
    rw [(clusters_ok_elim h).2.2]
    exact cluster_placements_pairwise clusters numBeats sd ed so eo

/-- Witness for C1 at a concrete successful run of each path. -/
theorem c1_slot_uniqueness_witness :
    (([⟨0, 0, 1, false, none⟩] : List Placement).map
      (fun p => p.beat_index)).Nodup ∧
    ([⟨0, 0, 5, true, some 0⟩] : List Placement).Pairwise RelC :=
  ⟨c1_slot_uniqueness.1 [⟨0, 1, none⟩] 2 0 10 0 0 [⟨0, 0, 1, false, none⟩] rfl,
   c1_slot_uniqueness.2 [⟨[⟨0, 5, some 1⟩, ⟨1, 6, none⟩], 5, 6⟩] 3 0 10 0 0
     [⟨0, 0, 5, true, some 0⟩] rfl⟩

/-! Claim C8: minimum-gap clustering boundaries. -/

/-- Adjacent photos inside one cluster: the gap from the immediately
preceding photo stayed below the configured amount. -/
def GapLT (tg : TimeGap) (a b : Photo) : Prop :=
  calculate_time_delta a.date b.date tg.unit < tg.amount

/-- Adjacent clusters: the gap from the last photo of the earlier cluster to
the first photo of the later one reached the configured amount. -/
def GapGE (tg : TimeGap) (c₁ c₂ : List Photo) : Prop :=
  ∀ x, c₁.getLast? = some x → ∀ y, c₂.head? = some y →
    tg.amount ≤ calculate_time_delta x.date y.date tg.unit

theorem minGapGo_join (tg : TimeGap) :
    ∀ (rest : List Photo) (prev : Photo) (cur : List Photo),
      (minGapGo tg prev cur rest).flatten = cur ++ rest := by
  intro rest
  induction rest with
  | nil => intro prev cur; simp [minGapGo]
  | cons ph rest ih =>
      intro prev cur
      unfold minGapGo
      split
      · rw [List.flatten_cons, ih ph [ph]]
        simp
      · rw [ih ph (cur ++ [ph])]
        simp

theorem minGapGo_head (tg : TimeGap) :
    ∀ (rest : List Photo) (prev : Photo) (cur : List Photo),
      ∃ t tc, minGapGo tg prev cur rest = (cur ++ t) :: tc := by
  intro rest
  induction rest with
  | nil => intro prev cur; exact ⟨[], [], by simp [minGapGo]⟩
  | cons ph rest ih =>
      intro prev cur
      unfold minGapGo
      split
      · exact ⟨[], minGapGo tg ph [ph] rest, by simp⟩
      · obtain ⟨t, tc, ht⟩ := ih ph (cur ++ [ph])
        exact ⟨ph :: t, tc, by rw [ht]; simp⟩

theorem minGapGo_chains (tg : TimeGap) :
    ∀ (rest : List Photo) (prev : Photo) (cur : List Photo),
      cur.getLast? = some prev → cur.Chain' (GapLT tg) →
      (∀ g ∈ minGapGo tg prev cur rest, g.Chain' (GapLT tg)) ∧
        (minGapGo tg prev cur rest).Chain' (GapGE tg) := by
  intro rest
  induction rest with
  | nil =>
      intro prev cur _ hcur
      refine ⟨fun g hg => ?_, ?_⟩
      · rcases List.mem_singleton.mp hg with rfl; exact hcur
      · exact List.chain'_singleton _
  | cons ph rest ih =>
      intro prev cur hlast hcur
      unfold minGapGo
      split
      · rename_i hgap
        have ihx := ih ph [ph] rfl (List.chain'_singleton _)
        refine ⟨fun g hg => ?_, ?_⟩
        · rcases List.mem_cons.mp hg with rfl | hg
          · exact hcur
          · exact ihx.1 g hg
        · rw [List.chain'_cons']
          refine ⟨?_, ihx.2⟩
          intro g hg
          obtain ⟨t, tc, ht⟩ := minGapGo_head tg rest ph [ph]
          rw [ht] at hg
          have hgeq : ph :: t = g := by simpa using hg
          subst hgeq
          intro x hx y hy
          rw [hlast] at hx
          cases hx
          have hyp : ph = y := by simpa using hy
          subst hyp
          exact hgap
      · rename_i hgap
        refine ih ph (cur ++ [ph]) (by simp) ?_
        rw [List.chain'_append]
        refine ⟨hcur, List.chain'_singleton _, ?_⟩
        intro x hx y hy
        rw [hlast] at hx
        cases hx
        have hyp : ph = y := by simpa using hy
        subst hyp
        exact Nat.lt_of_not_le hgap

/-- C8.  Minimum-gap clustering boundary: the clusters are consecutive runs
of the input list (nothing dropped, order preserved), the gap measured from
the immediately preceding item stays below the configured amount inside a
cluster, a new cluster starts exactly when that gap reaches the amount, and
items at `t = 0s, 10s, 25s` with `minimumGap(20, second)` form the single
cluster containing all three. -/
theorem c8_minimum_gap_boundary :
    ∀ (photos : List Photo) (tg : TimeGap),
      ((cluster_photos_by_minimum_gap photos tg).map (fun c => c.photos)).flatten
          = photos ∧
      (∀ c ∈ cluster_photos_by_minimum_gap photos tg,
        c.photos.Chain' (GapLT tg)) ∧
      (cluster_photos_by_minimum_gap photos tg).Chain'
        (fun c₁ c₂ => GapGE tg c₁.photos c₂.photos) ∧
      cluster_photos_by_minimum_gap
          [⟨0, 0, none⟩, ⟨1, 10, none⟩, ⟨2, 25, none⟩] ⟨20, .second, false⟩ =
        [⟨[⟨0, 0, none⟩, ⟨1, 10, none⟩, ⟨2, 25, none⟩], 0, 25⟩] := by
  intro photos tg
  refine ⟨?_, ?_, ?_, rfl⟩
  · cases photos with
    | nil => rfl
    | cons p rest =>
        show ((List.map mkCluster (minGapGo tg p [p] rest)).map
          (fun c => c.photos)).flatten = p :: rest
        rw [List.map_map]
        have : ((fun c : PhotoCluster => c.photos) ∘ mkCluster) = id := rfl
        rw [this, List.map_id]
        exact minGapGo_join tg rest p [p]
  · cases photos with
    | nil => intro c hc; exact absurd hc (List.not_mem_nil c)
    | cons p rest =>
        intro c hc
        rcases List.mem_map.mp hc with ⟨g, hg, rfl⟩
        exact (minGapGo_chains tg rest p [p] rfl (List.chain'_singleton _)).1 g hg
  · cases photos with
    | nil => exact List.chain'_nil
    | cons p rest =>
        show (List.map mkCluster (minGapGo tg p [p] rest)).Chain' _
        rw [List.chain'_map]
        exact (minGapGo_chains tg rest p [p] rfl (List.chain'_singleton _)).2

/-- Witness for C8 at the specification's concrete example. -/
theorem c8_minimum_gap_boundary_witness :
    (([⟨[⟨0, 0, none⟩, ⟨1, 10, none⟩, ⟨2, 25, none⟩], 0, 25⟩] :
        List PhotoCluster).map (fun c => c.photos)).flatten =
      [⟨0, 0, none⟩, ⟨1, 10, none⟩, ⟨2, 25, none⟩] ∧
    ([⟨0, 0, none⟩, ⟨1, 10, none⟩, ⟨2, 25, none⟩] : List Photo).Chain'
      (GapLT ⟨20, .second, false⟩) := by
  have h := c8_minimum_gap_boundary
    [⟨0, 0, none⟩, ⟨1, 10, none⟩, ⟨2, 25, none⟩] ⟨20, .second, false⟩
  refine ⟨?_, ?_⟩
  · have := h.1
    rw [h.2.2.2] at this
    exact this
  · have := h.2.1 ⟨[⟨0, 0, none⟩, ⟨1, 10, none⟩, ⟨2, 25, none⟩], 0, 25⟩
      (by rw [h.2.2.2]; exact List.mem_singleton.mpr rfl)
    exact this

/-! Claim C5: capacity precondition, and the spiral search's ability to
drop a cluster even when capacity suffices. -/

/-- Counterexample to C5 as stated: four singleton unpinned clusters against
five effective slots (capacity suffices), all preferring slot 0.  The spiral
search's candidate offsets reach only about half the range to each side, so
cluster 3 finds no free slot and is silently dropped: the run succeeds with
three placements and no placement for cluster 3, slots 3 and 4 left free. -/
theorem c5_capacity_cex :
    map_photo_clusters_to_beats
        [⟨[⟨0, 0, none⟩], 0, 0⟩, ⟨[⟨1, 1, none⟩], 1, 1⟩,
         ⟨[⟨2, 2, none⟩], 2, 2⟩, ⟨[⟨3, 3, none⟩], 3, 3⟩] 5 0 100 0 0 =
      .ok [⟨0, 0, 0, false, some 0⟩, ⟨1, 1, 1, false, some 1⟩,
           ⟨2, 2, 2, false, some 2⟩] ∧
    effective_beat_count 5 0 0 = 5 ∧
    ([⟨0, 0, 0, false, some 0⟩, ⟨1, 1, 1, false, some 1⟩,
      ⟨2, 2, 2, false, some 2⟩] : List Placement).all
        (fun p => !(p.cluster_id == some 3)) = true :=
  ⟨rfl, rfl, rfl⟩

/-- C5 (amended).  Capacity is a precondition: when the cluster count (or the
in-range item count on the no-clustering path) exceeds the effective slot
count, assignment fails with `CapacityExceeded(required, available)` before
any slot search and produces zero placements — six singleton unpinned
clusters against five effective slots fail with `CapacityExceeded(6, 5)`.
When the count fits, however, the spiral search is not guaranteed to reach a
free slot, and a cluster whose search exhausts its radii is silently dropped
rather than reported. -/
theorem c5_capacity_precondition :
    (∀ (clusters : List PhotoCluster) (numBeats : Nat) (sd ed : Int)
        (so eo : Nat), sd < ed →
        effective_beat_count numBeats so eo < clusters.length →
        map_photo_clusters_to_beats clusters numBeats sd ed so eo =
          .error (.too_many clusters.length
            (effective_beat_count numBeats so eo))) ∧
    (∀ (photos : List Photo) (numBeats : Nat) (sd ed : Int) (so eo : Nat),
        sd < ed →
        effective_beat_count numBeats so eo <
          (photos.filter (inRange sd ed)).length →
        map_photos_to_beats_original photos numBeats sd ed so eo =
          .error (.too_many (photos.filter (inRange sd ed)).length
            (effective_beat_count numBeats so eo))) ∧
    map_photo_clusters_to_beats
        ((List.range 6).map (fun i => ⟨[⟨i, (i : Int), none⟩], i, i⟩)) 5 0 100 0 0 =
      .error (.too_many 6 5) := by
  refine ⟨?_, ?_, rfl⟩
  · intro clusters numBeats sd ed so eo h1 h2
    simp only [map_photo_clusters_to_beats]
    rw [if_neg (by omega), if_pos h2]
  · intro photos numBeats sd ed so eo h1 h2
    simp only [map_photos_to_beats_original]
    rw [if_neg (by omega), if_pos h2]

/-- Witness for C5 at the specification's `CapacityExceeded(6, 5)` example. -/
theorem c5_capacity_precondition_witness :
    map_photo_clusters_to_beats
        ((List.range 6).map (fun i => ⟨[⟨i, (i : Int), none⟩], i, i⟩)) 5 0 100 0 0 =
      .error (.too_many 6 5) :=
  c5_capacity_precondition.1
    ((List.range 6).map (fun i => ⟨[⟨i, (i : Int), none⟩], i, i⟩)) 5 0 100 0 0
    (by omega) (by decide)

/-! Claim C9: behaviour on a non-positive effective range. -/

theorem effective_beat_count_eq_zero {numBeats so eo : Nat}
    (h1 : numBeats ≤ so + eo) (h2 : eo ≤ numBeats) :
    effective_beat_count numBeats so eo = 0 := by
  simp only [effective_beat_count]
  split_ifs <;> omega

theorem insertGroup_ne_nil (gs : List (Int × List Photo)) (k : Int)
    (ph : Photo) : insertGroup gs k ph ≠ [] := by
  cases gs with
  | nil => simp [insertGroup]
  | cons g rest =>
      obtain ⟨k', g'⟩ := g
      simp only [insertGroup]
      split <;> simp

theorem insertGroup_groups_ne_nil {gs : List (Int × List Photo)} {k : Int}
    {ph : Photo} (h : ∀ g ∈ gs, g.2 ≠ []) :
    ∀ g ∈ insertGroup gs k ph, g.2 ≠ [] := by
  induction gs with
  | nil =>
      intro g hg
      simp only [insertGroup] at hg
      rcases List.mem_singleton.mp hg with rfl
      simp
  | cons g0 rest ih =>
      obtain ⟨k', g'⟩ := g0
      intro g hg
      simp only [insertGroup] at hg
      split at hg
      · rcases List.mem_cons.mp hg with rfl | hg
        · simp
        · exact h g (List.mem_cons_of_mem _ hg)
      · rcases List.mem_cons.mp hg with rfl | hg
        · exact h (k', g') (List.mem_cons_self _ _)
        · exact ih (fun x hx => h x (List.mem_cons_of_mem _ hx)) g hg

theorem same_period_ne_nil (photos : List Photo) (tg : TimeGap)
    (hne : photos ≠ []) : cluster_photos_by_same_period photos tg ≠ [] := by
  intro hempty
  simp only [cluster_photos_by_same_period] at hempty
  have hperm := List.perm_insertionSort
    (fun a b : PhotoCluster => a.start_date ≤ b.start_date)
    ((((photos.foldl (fun gs ph =>
        insertGroup gs (normalize_to_period_start ph.date tg.unit) ph) []).filter
      (fun g => !g.2.isEmpty)).map (fun g => mkCluster g.2)))
  rw [hempty] at hperm
  have hmapnil := hperm.nil_eq.symm
  set groups := photos.foldl (fun gs ph =>
    insertGroup gs (normalize_to_period_start ph.date tg.unit) ph) [] with hgroups
  have hfilter : groups.filter (fun g => !g.2.isEmpty) = [] :=
    List.map_eq_nil_iff.mp hmapnil
  have hall : ∀ g ∈ groups, g.2 ≠ [] := by
    rw [hgroups]
    refine foldl_inv _ (fun gs : List (Int × List Photo) => ∀ g ∈ gs, g.2 ≠ []) photos [] ?_ ?_
    · intro a x _ h
      exact insertGroup_groups_ne_nil h
    · intro g hg
      exact absurd hg (List.not_mem_nil g)
  have hgne : groups ≠ [] := by
    rw [hgroups]
    cases photos with
    | nil => exact absurd rfl hne
    | cons p rest =>
        rw [List.foldl_cons]
        refine foldl_inv _ (fun gs : List (Int × List Photo) => gs ≠ []) rest _ ?_ ?_
        · intro a x _ _
          exact insertGroup_ne_nil a _ x
        · exact insertGroup_ne_nil [] _ p
  have : groups.filter (fun g => !g.2.isEmpty) = groups :=
    List.filter_eq_self.mpr (fun g hg => by
      simpa [List.isEmpty_iff] using hall g hg)
  rw [this] at hfilter
  exact hgne hfilter

theorem min_gap_ne_nil (photos : List Photo) (tg : TimeGap)
    (hne : photos ≠ []) : cluster_photos_by_minimum_gap photos tg ≠ [] := by
  cases photos with
  | nil => exact absurd rfl hne
  | cons p rest =>
      simp only [cluster_photos_by_minimum_gap]
      obtain ⟨t, tc, ht⟩ := minGapGo_head tg rest p [p]
      rw [ht]
      simp

theorem cluster_time_gap_ne_nil (photos : List Photo) (tg : TimeGap)
    (hne : photos ≠ []) : cluster_photos_by_time_gap photos tg ≠ [] := by
  simp only [cluster_photos_by_time_gap]
  split
  · simpa using hne
  · split
    · exact same_period_ne_nil photos tg hne
    · exact min_gap_ne_nil photos tg hne

/-- Counterexample to C9 as stated: total slots 3, offsets 2 and 2 give an
effective range of size `3 − 2 − 2 = −1 ≤ 0`, yet with the one photo outside
the date window the run does not fail at all — it returns an empty placement
list (only a warning in the source), and no `InvalidConfiguration` error
exists anywhere in the mapping code. -/
theorem c9_invalid_configuration_cex :
    map_photos_to_beats [⟨0, 500, none⟩] 3 0 100 2 2 ⟨20, .second, false⟩ =
      .ok [] ∧ effective_beat_count 3 2 2 = 0 :=
  ⟨rfl, rfl⟩

/-- C9 (amended).  A non-positive effective range `total − so − eo ≤ 0` is
not detected as a distinct configuration error, and the outcome depends on
how the range became non-positive.  (1) When the end offset fits the grid
(`eo ≤ total`, so the effective slice really is empty) and at least one
photo survives the date filter (with a valid date window), the run fails
with the capacity error — too many photos or clusters for 0 available beats
— which on the clustering path is raised only after clustering has run.
(2) When no photo survives the filter, the run returns an empty placement
list with no error at all.  (3) When the end offset exceeds the grid
(`eo > total`), Python's negative slice end wraps around to the front:
`num_effective_beats` can be positive and the run can even succeed and place
photos — with total slots 3, offsets 0 and 4 (nominal range −1), the slice
`beats[0:-1]` has 2 effective beats and one in-range photo is placed at
beat 0. -/
theorem c9_invalid_configuration :
    (∀ (photos : List Photo) (numBeats : Nat) (sd ed : Int) (so eo : Nat)
        (tg : TimeGap), numBeats ≤ so + eo → eo ≤ numBeats → sd < ed →
        photos.filter (inRange sd ed) ≠ [] →
        ∃ n, 0 < n ∧
          map_photos_to_beats photos numBeats sd ed so eo tg =
            .error (.too_many n 0)) ∧
    (∀ (photos : List Photo) (numBeats : Nat) (sd ed : Int) (so eo : Nat)
        (tg : TimeGap), photos.filter (inRange sd ed) = [] →
        map_photos_to_beats photos numBeats sd ed so eo tg = .ok []) ∧
    (effective_beat_count 3 0 4 = 2 ∧
      map_photos_to_beats [⟨0, 50, none⟩] 3 0 100 0 4 ⟨0, .second, false⟩ =
        .ok [⟨0, 0, 50, false, none⟩]) := by
  refine ⟨?_, ?_, rfl, rfl⟩
  · intro photos numBeats sd ed so eo tg h1 h2 h3 h4
    have hzero := effective_beat_count_eq_zero h1 h2
    simp only [map_photos_to_beats]
    rw [if_neg (by simpa [List.isEmpty_iff] using h4)]
    set F := photos.filter (inRange sd ed) with hF
    by_cases hamt : tg.amount = 0
    · refine ⟨F.length, by
        cases hFc : F with
        | nil => exact absurd hFc h4
        | cons a l => simp, ?_⟩
      rw [if_pos hamt]
      simp only [map_photos_to_beats_original]
      rw [if_neg (by omega)]
      have hFF : F.filter (inRange sd ed) = F :=
        List.filter_eq_self.mpr (fun a ha => (List.mem_filter.mp (hF ▸ ha)).2)
      rw [hFF, hzero, if_pos (by
        cases hFc : F with
        | nil => exact absurd hFc h4
        | cons a l => simp)]
    · have hcl := cluster_time_gap_ne_nil F tg h4
      refine ⟨(cluster_photos_by_time_gap F tg).length, by
        cases hc : cluster_photos_by_time_gap F tg with
        | nil => exact absurd hc hcl
        | cons a l => simp, ?_⟩
      rw [if_neg hamt]
      simp only [map_photo_clusters_to_beats]
      rw [if_neg (by omega), hzero, if_pos (by
        cases hc : cluster_photos_by_time_gap F tg with
        | nil => exact absurd hc hcl
        | cons a l => simp)]
  · intro photos numBeats sd ed so eo tg h
    simp only [map_photos_to_beats]
    rw [if_pos (by simpa [List.isEmpty_iff] using h)]

/-- Witness for C9 at concrete inputs for both branches. -/
theorem c9_invalid_configuration_witness :
    (∃ n, 0 < n ∧
      map_photos_to_beats [⟨0, 50, none⟩] 3 0 100 2 2 ⟨20, .second, false⟩ =
        .error (.too_many n 0)) ∧
    map_photos_to_beats [⟨0, 500, none⟩] 3 0 100 2 2 ⟨20, .second, false⟩ =
      .ok [] :=
  ⟨c9_invalid_configuration.1 [⟨0, 50, none⟩] 3 0 100 2 2 ⟨20, .second, false⟩
      (by omega) (by omega) (by omega) (by decide),
   c9_invalid_configuration.2.1 [⟨0, 500, none⟩] 3 0 100 2 2
      ⟨20, .second, false⟩ (by decide)⟩

/-! Claim C10: date-range filtering. -/

/-- Every recorded placement's date satisfies `R`. -/
def DateInv (R : Int → Prop) (st : Finset Int × List Placement) : Prop :=
  ∀ p ∈ st.2, R p.date

theorem anchorStep_dateInv {R : Int → Prop} {lo hi : Int} {cid : Option Nat}
    {acc : Finset Int × List Placement} {ph : Photo} (hph : R ph.date)
    (hInv : DateInv R acc) : DateInv R (anchorStep lo hi cid acc ph) := by
  rcases anchorStep_cases lo hi cid acc ph with h | ⟨a, _, _, _, _, h⟩ <;> rw [h]
  · exact hInv
  · intro p hp
    rcases List.mem_append.mp hp with hp | hp
    · exact hInv p hp
    · rcases List.mem_singleton.mp hp with rfl
      exact hph

theorem chronoPhotoStep_dateInv {R : Int → Prop} {sd ts : Int} {so : Nat}
    {lo hi : Int} {numEff : Nat} {acc : Finset Int × List Placement}
    {ph : Photo} (hph : R ph.date) (hInv : DateInv R acc) :
    DateInv R (chronoPhotoStep sd ts so lo hi numEff acc ph) := by
  rcases chronoPhotoStep_cases sd ts so lo hi numEff acc ph with h | ⟨b, _, h⟩ <;>
    rw [h]
  · exact hInv
  · intro p hp
    rcases List.mem_append.mp hp with hp | hp
    · exact hInv p hp
    · rcases List.mem_singleton.mp hp with rfl
      exact hph

theorem clusterStep_dateInv {R : Int → Prop} {sd ts : Int} {so : Nat}
    {lo hi : Int} {numEff : Nat} {acc : Finset Int × List Placement}
    {ic : Nat × PhotoCluster} (hph : ∀ ph ∈ ic.2.photos, R ph.date)
    (hInv : DateInv R acc) :
    DateInv R (clusterStep sd ts so lo hi numEff acc ic) := by
  rcases clusterStep_cases sd ts so lo hi numEff acc ic with h | ⟨b, _, h⟩ <;>
    rw [h]
  · exact hInv
  · intro p hp
    rcases List.mem_append.mp hp with hp | hp
    · exact hInv p hp
    · rcases List.mem_map.mp hp with ⟨q, hq, rfl⟩
      exact hph q (List.mem_of_mem_filter hq)

theorem pass1_dateInv {R : Int → Prop} {lo hi : Int}
    {tagged : List (Photo × Option Nat)}
    (h : ∀ pc ∈ tagged, R pc.1.date) : DateInv R (pass1 lo hi tagged) := by
  unfold pass1
  refine foldl_inv _ (DateInv R) tagged _ ?_ ?_
  · intro a x hx hinv
    exact anchorStep_dateInv (h x hx) hinv
  · intro p hp
    exact absurd hp (List.not_mem_nil p)

theorem original_placements_dates (photos : List Photo) (numBeats : Nat)
    (sd ed : Int) (so eo : Nat) :
    ∀ p ∈ original_placements photos numBeats sd ed so eo,
      sd ≤ p.date ∧ p.date ≤ ed := by
  intro p hp
  simp only [original_placements] at hp
  rw [List.mem_insertionSort] at hp
  revert p hp
  show DateInv (fun d => sd ≤ d ∧ d ≤ ed) _
  refine foldl_inv _ (DateInv fun d => sd ≤ d ∧ d ≤ ed) _ _ ?_ ?_
  · intro a x hx hinv
    refine chronoPhotoStep_dateInv ?_ hinv
    have hxf := List.mem_of_mem_filter hx
    have := (List.mem_filter.mp hxf).2
    simpa [inRange] using this
  · refine pass1_dateInv ?_
    intro pc hpc
    rcases List.mem_map.mp hpc with ⟨ph, hph, rfl⟩
    have := (List.mem_filter.mp hph).2
    simpa [inRange] using this

theorem cluster_placements_dates {R : Int → Prop} (clusters : List PhotoCluster)
    (numBeats : Nat) (sd ed : Int) (so eo : Nat)
    (hc : ∀ c ∈ clusters, ∀ ph ∈ c.photos, R ph.date) :
    ∀ p ∈ cluster_placements clusters numBeats sd ed so eo, R p.date := by
  intro p hp
  simp only [cluster_placements] at hp
  rw [List.mem_insertionSort] at hp
  revert p hp
  show DateInv R _
  refine foldl_inv _ (DateInv R) _ _ ?_ ?_
  · intro a x hx hinv
    refine clusterStep_dateInv ?_ hinv
    intro ph hph
    have hxe := List.mem_of_mem_filter hx
    have hsnd : x.2 ∈ clusters := by
      have := List.enum_map_snd clusters
      rw [← this]
      exact List.mem_map.mpr ⟨x, hxe, rfl⟩
    exact hc x.2 hsnd ph hph
  · refine pass1_dateInv ?_
    intro pc hpc
    rcases List.mem_flatMap.mp hpc with ⟨ic, hic, hmem⟩
    rcases List.mem_map.mp hmem with ⟨ph, hph, rfl⟩
    have hsnd : ic.2 ∈ clusters := by
      have := List.enum_map_snd clusters
      rw [← this]
      exact List.mem_map.mpr ⟨ic, hic, rfl⟩
    exact hc ic.2 hsnd ph hph

theorem insertGroup_photos_sub {P : Photo → Prop}
    {gs : List (Int × List Photo)} {k : Int} {ph : Photo}
    (h : ∀ g ∈ gs, ∀ q ∈ g.2, P q) (hph : P ph) :
    ∀ g ∈ insertGroup gs k ph, ∀ q ∈ g.2, P q := by
  induction gs with
  | nil =>
      intro g hg q hq
      simp only [insertGroup] at hg
      rcases List.mem_singleton.mp hg with rfl
      rcases List.mem_singleton.mp hq with rfl
      exact hph
  | cons g0 rest ih =>
      obtain ⟨k', g'⟩ := g0
      intro g hg q hq
      simp only [insertGroup] at hg
      split at hg
      · rcases List.mem_cons.mp hg with rfl | hg
        · rcases List.mem_append.mp hq with hq | hq
          · exact h (k', g') (List.mem_cons_self _ _) q hq
          · rcases List.mem_singleton.mp hq with rfl
            exact hph
        · exact h g (List.mem_cons_of_mem _ hg) q hq
      · rcases List.mem_cons.mp hg with rfl | hg
        · exact h (k', g') (List.mem_cons_self _ _) q hq
        · exact ih (fun x hx => h x (List.mem_cons_of_mem _ hx)) g hg q hq

/-- Every photo of every cluster produced by any clustering mode is one of
the input photos. -/
theorem cluster_time_gap_photos_sub (photos : List Photo) (tg : TimeGap) :
    ∀ c ∈ cluster_photos_by_time_gap photos tg, ∀ ph ∈ c.photos,
      ph ∈ photos := by
  intro c hc ph hph
  simp only [cluster_photos_by_time_gap] at hc
  split at hc
  · rcases List.mem_map.mp hc with ⟨q, hq, rfl⟩
    rcases List.mem_singleton.mp hph with rfl
    exact hq
  · split at hc
    · simp only [cluster_photos_by_same_period] at hc
      rw [List.mem_insertionSort] at hc
      rcases List.mem_map.mp hc with ⟨g, hg, rfl⟩
      have hgs := List.mem_of_mem_filter hg
      have hall : ∀ g ∈ (photos.foldl (fun gs q =>
          insertGroup gs (normalize_to_period_start q.date tg.unit) q) []),
          ∀ q ∈ g.2, q ∈ photos := by
        refine foldl_inv _
          (fun gs : List (Int × List Photo) => ∀ g ∈ gs, ∀ q ∈ g.2, q ∈ photos)
          photos [] ?_ ?_
        · intro a x hx hinv
          exact insertGroup_photos_sub hinv hx
        · intro g hg
          exact absurd hg (List.not_mem_nil g)
      exact hall g hgs ph hph
    · cases photos with
      | nil => simp [cluster_photos_by_minimum_gap] at hc
      | cons p rest =>
          simp only [cluster_photos_by_minimum_gap] at hc
          rcases List.mem_map.mp hc with ⟨g, hg, rfl⟩
          have : ph ∈ (minGapGo tg p [p] rest).flatten :=
            List.mem_flatten.mpr ⟨g, hg, hph⟩
          rw [minGapGo_join tg rest p [p]] at this
          exact this

/-- C10.  Implicit date-range filtering: every placement of a successful
`map_photos_to_beats` run carries a date inside the closed interval
`[start_date, end_date]`, and when no photo survives the filter the function
returns an empty placement list (with only a warning) instead of raising. -/
theorem c10_date_range_filtering :
    (∀ (photos : List Photo) (numBeats : Nat) (sd ed : Int) (so eo : Nat)
        (tg : TimeGap) (ps : List Placement),
        map_photos_to_beats photos numBeats sd ed so eo tg = .ok ps →
        ∀ p ∈ ps, sd ≤ p.date ∧ p.date ≤ ed) ∧
    (∀ (photos : List Photo) (numBeats : Nat) (sd ed : Int) (so eo : Nat)
        (tg : TimeGap), photos.filter (inRange sd ed) = [] →
        map_photos_to_beats photos numBeats sd ed so eo tg = .ok []) := by
  constructor
  · intro photos numBeats sd ed so eo tg ps h
    simp only [map_photos_to_beats] at h
    split at h
    · cases h
      intro p hp
      exact absurd hp (List.not_mem_nil p)
    · split at h
      · rcases original_ok_elim h with ⟨_, _, rfl⟩
        exact original_placements_dates _ numBeats sd ed so eo
      · rcases clusters_ok_elim h with ⟨_, _, rfl⟩
        refine cluster_placements_dates (R := fun d => sd ≤ d ∧ d ≤ ed) _ numBeats sd ed so eo ?_
        intro c hc ph hph
        have := cluster_time_gap_photos_sub _ tg c hc ph hph
        have := (List.mem_filter.mp this).2
        simpa [inRange] using this
  · intro photos numBeats sd ed so eo tg h
    simp only [map_photos_to_beats]
    rw [if_pos (by simpa [List.isEmpty_iff] using h)]

/-- Witness for C10 at concrete inputs for both branches. -/
theorem c10_date_range_filtering_witness :
    (∀ p ∈ ([⟨0, 1, 50, false, some 0⟩] : List Placement),
      (0 : Int) ≤ p.date ∧ p.date ≤ 100) ∧
    map_photos_to_beats [⟨0, 500, none⟩] 3 0 100 0 0 ⟨20, .second, false⟩ =
      .ok [] :=
  ⟨c10_date_range_filtering.1 [⟨0, 50, none⟩] 3 0 100 0 0 ⟨20, .second, false⟩
      [⟨0, 1, 50, false, some 0⟩] rfl,
   c10_date_range_filtering.2 [⟨0, 500, none⟩] 3 0 100 0 0 ⟨20, .second, false⟩
      (by decide)⟩

/-! Claim C2: conservative removal. -/

/-- C2.  Conservative removal: the planned removal set is exactly
`(current ∩ managed) − target`; a UID outside the previously-managed set (a
foreign, untagged item) is never proposed for removal; and with no stored
`SyncState` the removal set is empty. -/
theorem c2_conservative_removal :
    (∀ (current target : Finset Nat) (stored : Option SyncStateM)
        (curInfo : Nat → FrameInfo) (tgtInfo : Nat → Int × Int) (u : Nat),
        u ∈ (compute_differential_changes current target stored curInfo
            tgtInfo).items_to_remove ↔
          u ∈ current ∧ u ∈ managed_of stored ∧ u ∉ target) ∧
    (∀ (current target : Finset Nat) (stored : Option SyncStateM)
        (curInfo : Nat → FrameInfo) (tgtInfo : Nat → Int × Int) (u : Nat),
        u ∉ managed_of stored →
        u ∉ (compute_differential_changes current target stored curInfo
          tgtInfo).items_to_remove) ∧
    (∀ (current target : Finset Nat) (curInfo : Nat → FrameInfo)
        (tgtInfo : Nat → Int × Int),
        (compute_differential_changes current target none curInfo
          tgtInfo).items_to_remove = ∅) := by
  refine ⟨?_, ?_, ?_⟩
  · intro current target stored curInfo tgtInfo u
    simp [compute_differential_changes, Finset.mem_sdiff, Finset.mem_inter,
      and_assoc]
  · intro current target stored curInfo tgtInfo u hu
    simp [compute_differential_changes, Finset.mem_sdiff, Finset.mem_inter]
    intro _ hm
    exact absurd hm hu
  · intro current target curInfo tgtInfo
    simp [compute_differential_changes, managed_of]

/-- Witness for C2 at concrete UID sets. -/
theorem c2_conservative_removal_witness :
    ((5 : Nat) ∈ (compute_differential_changes {1, 5} {2} (some ⟨{5}⟩)
        (fun _ => ⟨0, 0⟩) (fun _ => (0, 0))).items_to_remove ↔
      (5 : Nat) ∈ ({1, 5} : Finset Nat) ∧
        (5 : Nat) ∈ managed_of (some ⟨{5}⟩) ∧ (5 : Nat) ∉ ({2} : Finset Nat)) ∧
    (3 : Nat) ∉ (compute_differential_changes {3} ∅ (some ⟨{5}⟩)
        (fun _ => ⟨0, 0⟩) (fun _ => (0, 0))).items_to_remove ∧
    (compute_differential_changes {3} ∅ none
        (fun _ => ⟨0, 0⟩) (fun _ => (0, 0))).items_to_remove = ∅ :=
  ⟨c2_conservative_removal.1 {1, 5} {2} (some ⟨{5}⟩) (fun _ => ⟨0, 0⟩)
      (fun _ => (0, 0)) 5,
   c2_conservative_removal.2.1 {3} ∅ (some ⟨{5}⟩) (fun _ => ⟨0, 0⟩)
      (fun _ => (0, 0)) 3 (by decide),
   c2_conservative_removal.2.2 {3} ∅ (fun _ => ⟨0, 0⟩) (fun _ => (0, 0))⟩

/-! Claim C3: reconciliation of an unchanged timeline. -/

theorem requires_update_zero : requires_update ⟨0, 0⟩ 0 0 = false := by
  have h0 : ¬((1 : ℚ) / 2 < |(0 : ℚ) - ((0 : Int) : ℚ)|) := by
    rw [Int.cast_zero, sub_zero, abs_zero]
    exact not_lt.mpr (le_of_lt one_half_pos)
  simp only [requires_update]
  rw [if_neg h0]
  exact decide_eq_false h0

/-- Counterexample to C3 as stated: a second run over a timeline that exactly
matches the target (current UIDs = target UIDs, stored state managing them,
zero drift) still produces a ChangeSet with `markers_to_sync = true`, whose
`has_changes` is `true` — not an empty ChangeSet. -/
theorem c3_idempotent_reconciliation_cex :
    (compute_differential_changes {1} {1} (some ⟨{1}⟩) (fun _ => ⟨0, 0⟩)
        (fun _ => (0, 0))).markers_to_sync = true ∧
    (compute_differential_changes {1} {1} (some ⟨{1}⟩) (fun _ => ⟨0, 0⟩)
        (fun _ => (0, 0))).has_changes = true := by
  refine ⟨rfl, ?_⟩
  simp [TimelineChanges.has_changes, compute_differential_changes]

/-- C3 (amended).  Re-planning against an unchanged timeline (current UIDs
equal to target UIDs and no drift on any of them) yields no additions, no
removals and no updates — but the ChangeSet is never empty: beat/marker sync
is always planned, so `markers_to_sync` is `true` and `has_changes` holds. -/
theorem c3_idempotent_reconciliation :
    ∀ (current : Finset Nat) (stored : Option SyncStateM)
      (curInfo : Nat → FrameInfo) (tgtInfo : Nat → Int × Int),
      (∀ u ∈ current,
        requires_update (curInfo u) (tgtInfo u).1 (tgtInfo u).2 = false) →
      (compute_differential_changes current current stored curInfo
          tgtInfo).items_to_add = ∅ ∧
      (compute_differential_changes current current stored curInfo
          tgtInfo).items_to_remove = ∅ ∧
      (compute_differential_changes current current stored curInfo
          tgtInfo).items_to_update = ∅ ∧
      (compute_differential_changes current current stored curInfo
          tgtInfo).markers_to_sync = true ∧
      (compute_differential_changes current current stored curInfo
          tgtInfo).has_changes = true := by
  intro current stored curInfo tgtInfo hdrift
  refine ⟨?_, ?_, ?_, rfl, ?_⟩
  · simp [compute_differential_changes]
  · simp only [compute_differential_changes]
    rw [Finset.sdiff_eq_empty_iff_subset]
    exact Finset.inter_subset_left
  · simp only [compute_differential_changes]
    rw [Finset.filter_eq_empty_iff]
    intro u hu
    rw [Finset.inter_self] at hu
    simp [hdrift u hu]
  · simp [TimelineChanges.has_changes, compute_differential_changes]

/-- Witness for C3 at a concrete drift-free second run. -/
theorem c3_idempotent_reconciliation_witness :
    (compute_differential_changes {1} {1} (some ⟨{1}⟩) (fun _ => ⟨0, 0⟩)
        (fun _ => (0, 0))).items_to_add = ∅ ∧
    (compute_differential_changes {1} {1} (some ⟨{1}⟩) (fun _ => ⟨0, 0⟩)
        (fun _ => (0, 0))).items_to_remove = ∅ ∧
    (compute_differential_changes {1} {1} (some ⟨{1}⟩) (fun _ => ⟨0, 0⟩)
        (fun _ => (0, 0))).items_to_update = ∅ ∧
    (compute_differential_changes {1} {1} (some ⟨{1}⟩) (fun _ => ⟨0, 0⟩)
        (fun _ => (0, 0))).markers_to_sync = true ∧
    (compute_differential_changes {1} {1} (some ⟨{1}⟩) (fun _ => ⟨0, 0⟩)
        (fun _ => (0, 0))).has_changes = true :=
  c3_idempotent_reconciliation {1} (some ⟨{1}⟩) (fun _ => ⟨0, 0⟩)
    (fun _ => (0, 0)) (fun _ _ => requires_update_zero)

/-! Claim C4: mutations performed by a dry-run session. -/

/-- Counterexample to C4 as stated: a dry-run session against a host where
the project does not yet exist still creates the project and writes the
three project settings before short-circuiting. -/
theorem c4_dry_run_cex :
    HostOp.createProject ∈
      (sync_project ⟨false, true, false, none, ∅, [], [], fun _ => ⟨0, 0⟩⟩ ∅
        (fun _ => (0, 0)) false false true true).1 ∧
    HostOp.setProjectSetting ∈
      (sync_project ⟨false, true, false, none, ∅, [], [], fun _ => ⟨0, 0⟩⟩ ∅
        (fun _ => (0, 0)) false false true true).1 := by
  constructor <;> decide

/-- C4 (amended).  A dry-run session, and likewise a session the operator
cancels at the conflict gate, issues no content mutation against the host —
no timeline is created, no media imported, no item or marker added or
removed, no sync state persisted, no timeline activated; but project
resolution and the three project setting writes still happen first, so an
absent project is created (and with `recreate` an existing one is deleted
and recreated) even on a dry run. -/
theorem c4_dry_run_no_content_mutation :
    (∀ (s : HostState) (target : Finset Nat) (tgtInfo : Nat → Int × Int)
        (force recreate confirm : Bool),
        (sync_project s target tgtInfo force recreate true confirm).1.all
          (fun op => !op.is_content_mutation) = true) ∧
    (∀ (s : HostState) (target : Finset Nat) (tgtInfo : Nat → Int × Int),
        s.projectExists = true → s.timelineExists = true →
        has_conflicts s = true →
        (sync_project s target tgtInfo false false false false).1.all
          (fun op => !op.is_content_mutation) = true) := by
  constructor
  · intro s target tgtInfo force recreate confirm
    simp only [sync_project]
    split_ifs <;>
      simp_all [HostOp.is_content_mutation]
  · intro s target tgtInfo hproj htl hconf
    simp only [sync_project]
    split_ifs <;>
      simp_all [HostOp.is_content_mutation]

/-- Witness for C4: a dry run against an existing conflicted project, and a
declined conflict gate, both issue only project-resolution and setting ops. -/
theorem c4_dry_run_no_content_mutation_witness :
    (sync_project ⟨true, true, true, none, ∅, [false], [], fun _ => ⟨0, 0⟩⟩ ∅
        (fun _ => (0, 0)) false false true true).1.all
      (fun op => !op.is_content_mutation) = true ∧
    (sync_project ⟨true, true, true, none, ∅, [false], [], fun _ => ⟨0, 0⟩⟩ ∅
        (fun _ => (0, 0)) false false false false).1.all
      (fun op => !op.is_content_mutation) = true :=
  ⟨c4_dry_run_no_content_mutation.1
      ⟨true, true, true, none, ∅, [false], [], fun _ => ⟨0, 0⟩⟩ ∅
      (fun _ => (0, 0)) false false true,
   c4_dry_run_no_content_mutation.2
      ⟨true, true, true, none, ∅, [false], [], fun _ => ⟨0, 0⟩⟩ ∅
      (fun _ => (0, 0)) rfl rfl (by decide)⟩

/-! Claim C6: pin priority. -/

theorem anchorStep_place {lo hi : Int} {a : Nat} {cid : Option Nat}
    {acc : Finset Int × List Placement} {ph : Photo}
    (ha : ph.anchor = some a) (h1 : lo ≤ (a : Int) - 1)
    (h2 : (a : Int) - 1 < hi) (hocc : ((a : Int) - 1) ∉ acc.1) :
    anchorStep lo hi cid acc ph =
      (insert ((a : Int) - 1) acc.1,
       acc.2 ++ [⟨ph.path, (a : Int) - 1, ph.date, true, cid⟩]) := by
  unfold anchorStep
  rw [ha]
  dsimp only
  rw [if_pos ⟨h1, h2⟩, if_neg hocc]

theorem pass1_pin_fold {lo hi : Int} {a : Nat} {ph : Photo} :
    ∀ (l : List (Photo × Option Nat)) (acc : Finset Int × List Placement),
      (∃ cid, (ph, cid) ∈ l) →
      ph.anchor = some a →
      lo ≤ (a : Int) - 1 → (a : Int) - 1 < hi →
      ((a : Int) - 1) ∉ acc.1 →
      (∀ pc ∈ l, pc.1.anchor = some a → pc.1 = ph) →
      ∃ p ∈ (l.foldl (fun acc pc => anchorStep lo hi pc.2 acc pc.1) acc).2,
        p.path = ph.path ∧ p.beat_index = (a : Int) - 1 ∧
          p.date = ph.date ∧ p.is_anchored = true := by
  intro l
  induction l with
  | nil =>
      intro acc hmem _ _ _ _ _
      obtain ⟨cid, hc⟩ := hmem
      exact absurd hc (List.not_mem_nil _)
  | cons pc l ih =>
      intro acc hmem ha h1 h2 hocc huniq
      rw [List.foldl_cons]
      by_cases heq : pc.1 = ph
      · have hstep : anchorStep lo hi pc.2 acc pc.1 =
            (insert ((a : Int) - 1) acc.1,
             acc.2 ++ [⟨ph.path, (a : Int) - 1, ph.date, true, pc.2⟩]) := by
          rw [heq]
          exact anchorStep_place ha h1 h2 hocc
        rw [hstep]
        refine ⟨⟨ph.path, (a : Int) - 1, ph.date, true, pc.2⟩, ?_,
          rfl, rfl, rfl, rfl⟩
        refine foldl_mem_mono _ (fun st x => anchorStep_snd lo hi x.2 st x.1)
          l _ ?_
        exact List.mem_append_right _ (List.mem_singleton.mpr rfl)
      · have hmem' : ∃ cid, (ph, cid) ∈ l := by
          obtain ⟨cid, hc⟩ := hmem
          rcases List.mem_cons.mp hc with hc | hc
          · exact absurd (congrArg Prod.fst hc.symm) heq
          · exact ⟨cid, hc⟩
        have hocc' : ((a : Int) - 1) ∉ (anchorStep lo hi pc.2 acc pc.1).1 := by
          rcases anchorStep_cases lo hi pc.2 acc pc.1 with h | ⟨b, hb, _, _, _, h⟩
          · rw [h]; exact hocc
          · rw [h]
            intro hmemi
            rcases Finset.mem_insert.mp hmemi with heqb | hmemi
            · have hba : b = a := by
                by_contra hba
                have : ((b : Int) - 1) ≠ ((a : Int) - 1) := by
                  intro hcontra
                  exact hba (Int.ofNat_inj.mp (by omega))
                exact this heqb.symm
              subst hba
              exact heq (huniq pc (List.mem_cons_self _ _) hb)
            · exact hocc hmemi
        exact ih (anchorStep lo hi pc.2 acc pc.1) hmem' ha h1 h2 hocc'
          (fun x hx => huniq x (List.mem_cons_of_mem _ hx))

theorem exists_enum_of_mem {α : Type _} {l : List α} {c : α} (h : c ∈ l) :
    ∃ i, (i, c) ∈ l.enum := by
  rw [List.mem_iff_getElem?] at h
  obtain ⟨i, hi⟩ := h
  refine ⟨i, ?_⟩
  rw [List.mem_enum_iff_getElem?]
  exact hi

/-- C6.  Pin priority: an item whose pin `a` targets an effective-range slot
`a − 1` claimed by no other item's pin always receives an anchored placement
at exactly slot `a − 1`, in both the no-clustering and the clustered path,
regardless of chronological pressure — the pin pass runs before the
chronological pass and placements are never removed. -/
theorem c6_pin_priority :
    (∀ (photos : List Photo) (numBeats : Nat) (sd ed : Int) (so eo : Nat)
        (ps : List Placement) (ph : Photo) (a : Nat),
        map_photos_to_beats_original photos numBeats sd ed so eo = .ok ps →
        ph ∈ photos → sd ≤ ph.date → ph.date ≤ ed → ph.anchor = some a →
        (so : Int) ≤ (a : Int) - 1 → (a : Int) - 1 < (numBeats : Int) - eo →
        (∀ q ∈ photos, q.anchor = some a → q = ph) →
        ∃ p ∈ ps, p.path = ph.path ∧ p.beat_index = (a : Int) - 1 ∧
          p.is_anchored = true) ∧
    (∀ (clusters : List PhotoCluster) (numBeats : Nat) (sd ed : Int)
        (so eo : Nat) (ps : List Placement) (c : PhotoCluster) (ph : Photo)
        (a : Nat),
        map_photo_clusters_to_beats clusters numBeats sd ed so eo = .ok ps →
        c ∈ clusters → ph ∈ c.photos → ph.anchor = some a →
        (so : Int) ≤ (a : Int) - 1 → (a : Int) - 1 < (numBeats : Int) - eo →
        (∀ c' ∈ clusters, ∀ q ∈ c'.photos, q.anchor = some a → q = ph) →
        ∃ p ∈ ps, p.path = ph.path ∧ p.beat_index = (a : Int) - 1 ∧
          p.is_anchored = true) := by
  constructor
  · intro photos numBeats sd ed so eo ps ph a hok hmem hd1 hd2 ha hlo hhi huniq
    rcases original_ok_elim hok with ⟨_, _, rfl⟩
    simp only [original_placements]
    have hphf : ph ∈ photos.filter (inRange sd ed) :=
      List.mem_filter.mpr ⟨hmem, by simp [inRange, hd1, hd2]⟩
    have hpin := pass1_pin_fold
      ((photos.filter (inRange sd ed)).map (fun q => (q, (none : Option Nat))))
      (∅, []) ⟨none, List.mem_map.mpr ⟨ph, hphf, rfl⟩⟩ ha hlo hhi
      (Finset.not_mem_empty _)
      (by
        intro pc hpc hpa
        rcases List.mem_map.mp hpc with ⟨q, hq, rfl⟩
        exact huniq q (List.mem_of_mem_filter hq) hpa)
    obtain ⟨p, hp, hpath, hbeat, hdate, hanch⟩ := hpin
    refine ⟨p, ?_, hpath, hbeat, hanch⟩
    rw [List.mem_insertionSort]
    refine foldl_mem_mono _
      (fun st x => chronoPhotoStep_snd sd (ed - sd) so so
        ((numBeats : Int) - eo) (effective_beat_count numBeats so eo) st x)
      _ _ ?_
    exact hp
  · intro clusters numBeats sd ed so eo ps c ph a hok hc hmem ha hlo hhi huniq
    rcases clusters_ok_elim hok with ⟨_, _, rfl⟩
    simp only [cluster_placements]
    obtain ⟨i, hienum⟩ := exists_enum_of_mem hc
    have hpin := pass1_pin_fold
      (clusters.enum.flatMap
        (fun ic => ic.2.photos.map (fun q => (q, some ic.1))))
      (∅, [])
      ⟨some i, List.mem_flatMap.mpr
        ⟨(i, c), hienum, List.mem_map.mpr ⟨ph, hmem, rfl⟩⟩⟩ ha hlo hhi
      (Finset.not_mem_empty _)
      (by
        intro pc hpc hpa
        rcases List.mem_flatMap.mp hpc with ⟨ic, hic, hmm⟩
        rcases List.mem_map.mp hmm with ⟨q, hq, rfl⟩
        have hsnd : ic.2 ∈ clusters := by
          have := List.enum_map_snd clusters
          rw [← this]
          exact List.mem_map.mpr ⟨ic, hic, rfl⟩
        exact huniq ic.2 hsnd q hq hpa)
    obtain ⟨p, hp, hpath, hbeat, hdate, hanch⟩ := hpin
    refine ⟨p, ?_, hpath, hbeat, hanch⟩
    rw [List.mem_insertionSort]
    refine foldl_mem_mono _
      (fun st x => clusterStep_snd sd (ed - sd) so so
        ((numBeats : Int) - eo) (effective_beat_count numBeats so eo) st x)
      _ _ ?_
    exact hp

/-- Witness for C6: a pinned photo lands on its requested slot on both
paths. -/
theorem c6_pin_priority_witness :
    (∃ p ∈ ([⟨1, 0, 1, false, none⟩, ⟨0, 1, 5, true, none⟩] : List Placement),
      p.path = 0 ∧ p.beat_index = ((2 : Nat) : Int) - 1 ∧
        p.is_anchored = true) ∧
    (∃ p ∈ ([⟨0, 0, 5, true, some 0⟩] : List Placement),
      p.path = 0 ∧ p.beat_index = ((1 : Nat) : Int) - 1 ∧
        p.is_anchored = true) :=
  ⟨c6_pin_priority.1 [⟨0, 5, some 2⟩, ⟨1, 1, none⟩] 3 0 10 0 0
      [⟨1, 0, 1, false, none⟩, ⟨0, 1, 5, true, none⟩] ⟨0, 5, some 2⟩ 2 rfl
      (by decide) (by decide) (by decide) rfl (by decide) (by decide)
      (by decide),
   c6_pin_priority.2 [⟨[⟨0, 5, some 1⟩, ⟨1, 6, none⟩], 5, 6⟩] 3 0 10 0 0
      [⟨0, 0, 5, true, some 0⟩] ⟨[⟨0, 5, some 1⟩, ⟨1, 6, none⟩], 5, 6⟩
      ⟨0, 5, some 1⟩ 1 rfl (by decide) (by decide) rfl (by decide) (by decide)
      (by decide)⟩

/-! Claim C7: cluster co-location. -/

theorem pass1_provenance {lo hi : Int} :
    ∀ (l : List (Photo × Option Nat)) (acc : Finset Int × List Placement)
      (p : Placement),
      p ∈ (l.foldl (fun st pc => anchorStep lo hi pc.2 st pc.1) acc).2 →
      p ∈ acc.2 ∨ ∃ pc ∈ l, ∃ a : Nat, pc.1.anchor = some a ∧
        p = ⟨pc.1.path, (a : Int) - 1, pc.1.date, true, pc.2⟩ := by
  intro l
  induction l with
  | nil => intro acc p hp; exact Or.inl hp
  | cons pc l ih =>
      intro acc p hp
      rw [List.foldl_cons] at hp
      rcases ih _ p hp with hmem | ⟨pc', hpc', a, ha, rfl⟩
      · rcases anchorStep_cases lo hi pc.2 acc pc.1 with h | ⟨a, ha, _, _, _, h⟩ <;>
          rw [h] at hmem
        · exact Or.inl hmem
        · rcases List.mem_append.mp hmem with hmem | hmem
          · exact Or.inl hmem
          · rcases List.mem_singleton.mp hmem with rfl
            exact Or.inr ⟨pc, List.mem_cons_self _ _, a, ha, rfl⟩
      · exact Or.inr ⟨pc', List.mem_cons_of_mem _ hpc', a, ha, rfl⟩

theorem cluster_fold_provenance {sd ts : Int} {so : Nat} {lo hi : Int}
    {numEff : Nat} :
    ∀ (U : List (Nat × PhotoCluster)) (acc : Finset Int × List Placement)
      (p : Placement),
      p ∈ (U.foldl (clusterStep sd ts so lo hi numEff) acc).2 →
      p ∈ acc.2 ∨ ∃ ic ∈ U, ∃ ph ∈ ic.2.photos, ∃ b : Int,
        p = ⟨ph.path, b, ph.date, false, some ic.1⟩ := by
  intro U
  induction U with
  | nil => intro acc p hp; exact Or.inl hp
  | cons ic U ih =>
      intro acc p hp
      rw [List.foldl_cons] at hp
      rcases ih _ p hp with hmem | ⟨ic', hic', ph, hph, b, rfl⟩
      · rcases clusterStep_cases sd ts so lo hi numEff acc ic
          with h | ⟨b, hb, h⟩ <;> rw [h] at hmem
        · exact Or.inl hmem
        · rcases List.mem_append.mp hmem with hmem | hmem
          · exact Or.inl hmem
          · rcases List.mem_map.mp hmem with ⟨ph, hph, rfl⟩
            exact Or.inr ⟨ic, List.mem_cons_self _ _, ph,
              List.mem_of_mem_filter hph, b, rfl⟩
      · exact Or.inr ⟨ic', List.mem_cons_of_mem _ hic', ph, hph, b, rfl⟩

theorem cluster_fold_colocate {sd ts : Int} {so : Nat} {lo hi : Int}
    {numEff : Nat} :
    ∀ (U : List (Nat × PhotoCluster)) (acc : Finset Int × List Placement),
      (U.map Prod.fst).Nodup →
      (∀ p ∈ acc.2, ∀ ic ∈ U, p.cluster_id ≠ some ic.1) →
      (∀ p ∈ acc.2, p.is_anchored = true →
        ∀ ic ∈ U, ∀ ph ∈ ic.2.photos, p.path ≠ ph.path) →
      ∀ ic ∈ U, ∀ p ∈ (U.foldl (clusterStep sd ts so lo hi numEff) acc).2,
        p.cluster_id = some ic.1 → p.is_anchored = false →
        ∀ ph ∈ ic.2.photos,
          ∃ q ∈ (U.foldl (clusterStep sd ts so lo hi numEff) acc).2,
            q.path = ph.path ∧ q.date = ph.date ∧
            q.beat_index = p.beat_index ∧ q.cluster_id = some ic.1 ∧
            q.is_anchored = false := by
  intro U
  induction U with
  | nil =>
      intro acc _ _ _ ic hic
      exact absurd hic (List.not_mem_nil ic)
  | cons ic0 U ih =>
      intro acc hND hOld hAnch ic hic p hp hcid hanch ph hph
      have hidx0 : ic0.1 ∉ U.map Prod.fst := (List.nodup_cons.mp hND).1
      rw [List.foldl_cons] at hp ⊢
      rcases clusterStep_cases sd ts so lo hi numEff acc ic0
        with hstep | ⟨b, hfree, hstep⟩
      · -- the head cluster's search failed and nothing was appended
        rw [hstep] at hp ⊢
        rcases List.mem_cons.mp hic with rfl | hicU
        · -- no placement with the head cluster's id can exist
          exfalso
          rcases cluster_fold_provenance U acc p hp with hmem | ⟨ic', hic', _, _, _, rfl⟩
          · exact hOld p hmem ic (List.mem_cons_self _ _) hcid
          · have : ic'.1 = ic.1 := by
              have := hcid
              simp only [Placement.cluster_id] at this
              exact Option.some.inj this
            exact hidx0 (this ▸ List.mem_map.mpr ⟨ic', hic', rfl⟩)
        · refine ih acc (List.nodup_cons.mp hND).2
            (fun q hq x hx => hOld q hq x (List.mem_cons_of_mem _ hx))
            (fun q hq ha x hx => hAnch q hq ha x (List.mem_cons_of_mem _ hx))
            ic hicU p hp hcid hanch ph hph
      · -- the head cluster was placed at the fresh beat b
        have hkeep : ∀ q ∈ ic0.2.photos,
            (!(acc.2.any (fun r => r.path == q.path && r.is_anchored))) = true := by
          intro q hq
          rw [Bool.not_eq_eq_eq_not, Bool.not_true, List.any_eq_false]
          intro r hr hcontra
          rw [Bool.and_eq_true, beq_iff_eq] at hcontra
          exact hAnch r hr hcontra.2 ic0 (List.mem_cons_self _ _) q hq
            hcontra.1
        have hGfull : (ic0.2.photos.filter (fun q =>
            !(acc.2.any (fun r => r.path == q.path && r.is_anchored)))) =
            ic0.2.photos := List.filter_eq_self.mpr hkeep
        rw [hstep] at hp ⊢
        have hOld' : ∀ q ∈ (acc.2 ++ (ic0.2.photos.filter (fun q =>
            !(acc.2.any (fun r => r.path == q.path && r.is_anchored)))).map
              (fun q => ⟨q.path, b, q.date, false, some ic0.1⟩) : List Placement),
            ∀ x ∈ U, q.cluster_id ≠ some x.1 := by
          intro q hq x hx
          rcases List.mem_append.mp hq with hq | hq
          · exact hOld q hq x (List.mem_cons_of_mem _ hx)
          · rcases List.mem_map.mp hq with ⟨ph', _, rfl⟩
            intro hcontra
            have : ic0.1 = x.1 := Option.some.inj hcontra
            exact hidx0 (this ▸ List.mem_map.mpr ⟨x, hx, rfl⟩)
        have hAnch' : ∀ q ∈ (acc.2 ++ (ic0.2.photos.filter (fun q =>
            !(acc.2.any (fun r => r.path == q.path && r.is_anchored)))).map
              (fun q => ⟨q.path, b, q.date, false, some ic0.1⟩) : List Placement),
            q.is_anchored = true → ∀ x ∈ U, ∀ ph' ∈ x.2.photos,
              q.path ≠ ph'.path := by
          intro q hq ha x hx ph' hph'
          rcases List.mem_append.mp hq with hq | hq
          · exact hAnch q hq ha x (List.mem_cons_of_mem _ hx) ph' hph'
          · rcases List.mem_map.mp hq with ⟨ph'', _, rfl⟩
            exact absurd ha (by simp)
        rcases List.mem_cons.mp hic with rfl | hicU
        · -- every photo of the head cluster landed at beat b together with p
          have hpG : p.beat_index = b := by
            rcases cluster_fold_provenance U _ p hp
              with hmem | ⟨ic', hic', _, _, _, rfl⟩
            · rcases List.mem_append.mp hmem with hmem | hmem
              · exact absurd hcid (hOld p hmem ic (List.mem_cons_self _ _))
              · rcases List.mem_map.mp hmem with ⟨ph', _, rfl⟩
                rfl
            · exfalso
              have : ic'.1 = ic.1 := Option.some.inj hcid
              exact hidx0 (this ▸ List.mem_map.mpr ⟨ic', hic', rfl⟩)
          refine ⟨⟨ph.path, b, ph.date, false, some ic.1⟩, ?_,
            rfl, rfl, hpG.symm, rfl, rfl⟩
          refine foldl_mem_mono _
            (fun st x => clusterStep_snd sd ts so lo hi numEff st x) U _ ?_
          refine List.mem_append_right _ ?_
          rw [hGfull]
          exact List.mem_map.mpr ⟨ph, hph, rfl⟩
        · exact ih _ (List.nodup_cons.mp hND).2 hOld' hAnch' ic hicU p hp
            hcid hanch ph hph

theorem nodup_paths_same_cluster {clusters : List PhotoCluster}
    (hnd : (clusters.flatMap (fun c => c.photos.map (fun q => q.path))).Nodup)
    {i j : Nat} {ci cj : PhotoCluster}
    (hi : clusters[i]? = some ci) (hj : clusters[j]? = some cj)
    {q r : Photo} (hq : q ∈ ci.photos) (hr : r ∈ cj.photos)
    (hpath : q.path = r.path) : i = j := by
  by_contra hij
  rw [List.nodup_flatMap] at hnd
  obtain ⟨hilen, higet⟩ := List.getElem?_eq_some.mp hi
  obtain ⟨hjlen, hjget⟩ := List.getElem?_eq_some.mp hj
  have hpw := List.pairwise_iff_get.mp hnd.2
  have hdisj : List.Disjoint (ci.photos.map (fun x => x.path))
      (cj.photos.map (fun x => x.path)) := by
    rcases Nat.lt_or_ge i j with hlt | hge
    · have := hpw ⟨i, hilen⟩ ⟨j, hjlen⟩ hlt
      simpa [Function.onFun, List.get_eq_getElem, higet, hjget] using this
    · have hlt : j < i := by omega
      have := hpw ⟨j, hjlen⟩ ⟨i, hilen⟩ hlt
      have hd := this
      simp only [Function.onFun, List.get_eq_getElem, higet, hjget] at hd
      exact List.Disjoint.symm hd
  exact hdisj (List.mem_map.mpr ⟨q, hq, rfl⟩)
    (hpath ▸ List.mem_map.mpr ⟨r, hr, rfl⟩)

/-- Counterexample to C7 as stated: a single cluster of two photos, one of
them pinning beat 1.  The pin succeeds, the cluster is exempted from the
chronological pass, and the unpinned member (path 1) receives no placement
at all — the satisfied cluster is not co-located. -/
theorem c7_cluster_colocation_cex :
    map_photo_clusters_to_beats
        [⟨[⟨0, 5, some 1⟩, ⟨1, 6, none⟩], 5, 6⟩] 3 0 10 0 0 =
      .ok [⟨0, 0, 5, true, some 0⟩] ∧
    ([⟨0, 0, 5, true, some 0⟩] : List Placement).all
      (fun q => !(q.path == 1)) = true :=
  ⟨rfl, rfl⟩

/-- C7 (amended).  Co-location holds for clusters satisfied by the
chronological pass: with globally distinct photo paths, every photo of a
cluster that received a chronological (non-anchored) placement receives one,
and all of them carry that same beat index.  A cluster satisfied by a pin is
exempted instead: it never receives both anchored and chronological
placements, and only its successfully pinned members are placed. -/
theorem c7_cluster_colocation :
    (∀ (clusters : List PhotoCluster) (numBeats : Nat) (sd ed : Int)
        (so eo : Nat) (ps : List Placement) (idx : Nat) (c : PhotoCluster)
        (p : Placement),
        map_photo_clusters_to_beats clusters numBeats sd ed so eo = .ok ps →
        (clusters.flatMap (fun cl => cl.photos.map (fun q => q.path))).Nodup →
        clusters[idx]? = some c →
        p ∈ ps → p.cluster_id = some idx → p.is_anchored = false →
        ∀ ph ∈ c.photos, ∃ q ∈ ps, q.path = ph.path ∧ q.date = ph.date ∧
          q.beat_index = p.beat_index ∧ q.cluster_id = some idx ∧
          q.is_anchored = false) ∧
    (∀ (clusters : List PhotoCluster) (numBeats : Nat) (sd ed : Int)
        (so eo : Nat) (ps : List Placement) (idx : Nat) (p q : Placement),
        map_photo_clusters_to_beats clusters numBeats sd ed so eo = .ok ps →
        p ∈ ps → q ∈ ps → p.cluster_id = some idx → q.cluster_id = some idx →
        p.is_anchored = true → q.is_anchored = false → False) := by
  constructor
  · intro clusters numBeats sd ed so eo ps idx c p hok hnd hgot hp hcid hanch
      ph hph
    rcases clusters_ok_elim hok with ⟨_, _, rfl⟩
    simp only [cluster_placements] at hp ⊢
    rw [List.mem_insertionSort] at hp
    -- the placement p must come from the chronological step of some
    -- unassigned pair (idx, c)
    have hprov := cluster_fold_provenance _ _ p hp
    rcases hprov with hmem | ⟨ic, hic, _, _, _, hshape⟩
    · exfalso
      rcases pass1_provenance _ _ p hmem with hnil | ⟨_, _, _, _, hshape⟩
      · exact absurd hnil (List.not_mem_nil p)
      · rw [hshape] at hanch
        exact absurd hanch (by simp)
    · have hic1 : ic.1 = idx := by
        rw [hshape] at hcid
        exact Option.some.inj hcid
      have hicc : ic.2 = c := by
        have hicenum := List.mem_of_mem_filter hic
        have := List.mem_enum_iff_getElem?.mp hicenum
        rw [hic1, hgot] at this
        exact (Option.some.inj this).symm
      -- invariants of the pass-1 accumulator
      have hND : ((clusters.enum.filter (fun x =>
          !((pass1 (so : Int) ((numBeats : Int) - eo)
            (clusters.enum.flatMap (fun y =>
              y.2.photos.map (fun w => (w, some y.1))))).2.any
            (fun r => r.cluster_id == some x.1 && r.is_anchored)))).map
          Prod.fst).Nodup := by
        refine List.Sublist.nodup
          (List.Sublist.map Prod.fst (List.filter_sublist clusters.enum)) ?_
        rw [List.enum_map_fst]
        exact List.nodup_range _
      have hOld : ∀ r ∈ (pass1 (so : Int) ((numBeats : Int) - eo)
          (clusters.enum.flatMap (fun y =>
            y.2.photos.map (fun w => (w, some y.1))))).2,
          ∀ x ∈ clusters.enum.filter (fun x =>
            !((pass1 (so : Int) ((numBeats : Int) - eo)
              (clusters.enum.flatMap (fun y =>
                y.2.photos.map (fun w => (w, some y.1))))).2.any
              (fun r => r.cluster_id == some x.1 && r.is_anchored))),
          r.cluster_id ≠ some x.1 := by
        intro r hr x hx hcontra
        have hpred := (List.mem_filter.mp hx).2
        rw [Bool.not_eq_eq_eq_not, Bool.not_true, List.any_eq_false] at hpred
        have hranch : r.is_anchored = true := by
          rcases pass1_provenance _ _ r hr with hnil | ⟨_, _, _, _, hshape'⟩
          · exact absurd hnil (List.not_mem_nil r)
          · rw [hshape']
        exact hpred r hr (by simp [hcontra, hranch])
      have hAnch : ∀ r ∈ (pass1 (so : Int) ((numBeats : Int) - eo)
          (clusters.enum.flatMap (fun y =>
            y.2.photos.map (fun w => (w, some y.1))))).2,
          r.is_anchored = true →
          ∀ x ∈ clusters.enum.filter (fun x =>
            !((pass1 (so : Int) ((numBeats : Int) - eo)
              (clusters.enum.flatMap (fun y =>
                y.2.photos.map (fun w => (w, some y.1))))).2.any
              (fun r => r.cluster_id == some x.1 && r.is_anchored))),
          ∀ ph' ∈ x.2.photos, r.path ≠ ph'.path := by
        intro r hr hranch x hx ph' hph' hcontra
        rcases pass1_provenance _ _ r hr with hnil | ⟨pc, hpc, a, hpa, hshape'⟩
        · exact absurd hnil (List.not_mem_nil r)
        · rcases List.mem_flatMap.mp hpc with ⟨y, hy, hmm⟩
          rcases List.mem_map.mp hmm with ⟨w, hw, heqpc⟩
          have hxenum := List.mem_of_mem_filter hx
          have hygot := List.mem_enum_iff_getElem?.mp hy
          have hxgot := List.mem_enum_iff_getElem?.mp hxenum
          have hpathw : w.path = ph'.path := by
            have : pc.1 = w := by rw [← heqpc]
            rw [hshape'] at hcontra
            simpa [this] using hcontra
          have hyx : y.1 = x.1 :=
            nodup_paths_same_cluster hnd hygot hxgot hw hph' hpathw
          have hpred := (List.mem_filter.mp hx).2
          rw [Bool.not_eq_eq_eq_not, Bool.not_true, List.any_eq_false]
            at hpred
          refine hpred r hr ?_
          have hcidr : r.cluster_id = some y.1 := by
            rw [hshape', ← heqpc]
          simp [hcidr, hyx, hranch]
      have hcol := cluster_fold_colocate _ _ hND hOld hAnch ic hic p hp
        (by rw [hic1]; exact hcid) hanch ph (by rw [hicc]; exact hph)
      obtain ⟨q, hq, hqpath, hqdate, hqbeat, hqcid, hqanch⟩ := hcol
      refine ⟨q, (List.mem_insertionSort _).mpr hq, hqpath, hqdate, hqbeat,
        ?_, hqanch⟩
      rw [← hic1]
      exact hqcid
  · intro clusters numBeats sd ed so eo ps idx p q hok hp hq hpcid hqcid
      hpanch hqanch
    rcases clusters_ok_elim hok with ⟨_, _, rfl⟩
    simp only [cluster_placements] at hp hq
    rw [List.mem_insertionSort] at hp hq
    -- q is chronological, so its cluster is unassigned; p is anchored, so it
    -- is a pass-1 placement of that same cluster, contradicting the
    -- unassigned predicate
    rcases cluster_fold_provenance _ _ q hq with hqmem | ⟨ic, hic, _, _, _, hqshape⟩
    · rcases pass1_provenance _ _ q hqmem with hnil | ⟨_, _, _, _, hqshape⟩
      · exact absurd hnil (List.not_mem_nil q)
      · rw [hqshape] at hqanch
        exact absurd hqanch (by simp)
    · have hpmem : p ∈ (pass1 (so : Int) ((numBeats : Int) - eo)
          (clusters.enum.flatMap (fun y =>
            y.2.photos.map (fun w => (w, some y.1))))).2 := by
        rcases cluster_fold_provenance _ _ p hp
          with hpmem | ⟨_, _, _, _, _, hpshape⟩
        · exact hpmem
        · rw [hpshape] at hpanch
          exact absurd hpanch (by simp)
      have hpred := (List.mem_filter.mp hic).2
      rw [Bool.not_eq_eq_eq_not, Bool.not_true, List.any_eq_false] at hpred
      refine hpred p hpmem ?_
      have hic1 : ic.1 = idx := by
        rw [hqshape] at hqcid
        exact Option.some.inj hqcid
      simp [hpcid, hic1, hpanch]

/-- Witness for C7: co-location of a two-photo cluster placed by the
chronological pass, and pin-exemption at the counterexample configuration. -/
theorem c7_cluster_colocation_witness :
    (∀ ph ∈ ([⟨0, 4, none⟩, ⟨1, 5, none⟩] : List Photo),
      ∃ q ∈ ([⟨0, 1, 4, false, some 0⟩, ⟨1, 1, 5, false, some 0⟩] :
          List Placement),
        q.path = ph.path ∧ q.date = ph.date ∧
        q.beat_index = (⟨0, 1, 4, false, some 0⟩ : Placement).beat_index ∧
        q.cluster_id = some 0 ∧ q.is_anchored = false) :=
  c7_cluster_colocation.1 [⟨[⟨0, 4, none⟩, ⟨1, 5, none⟩], 4, 5⟩] 3 0 10 0 0
    [⟨0, 1, 4, false, some 0⟩, ⟨1, 1, 5, false, some 0⟩] 0
    ⟨[⟨0, 4, none⟩, ⟨1, 5, none⟩], 4, 5⟩ ⟨0, 1, 4, false, some 0⟩ rfl
    (by decide) (by decide) (by decide) rfl rfl

end Beatspine
